import Mathlib

/-!
Corpus processor: extraction engine

A shallow embedding of the extraction engine of `corpus-processor/process.js`
(`scorePressure`, `detectAxiom`, `detectDomain`, `detectOutcome`,
`calculateCoordinates`, `clamp`, `truncate`, `isUserRole`, `extractAnecdotes`) and
of its plain-text parser `parseText`, together with the part of ECMAScript
regular-expression matching that the patterns of that file use.

Conventions of the embedding.

* A JavaScript string is a Lean `String`; matching walks its list of characters.
  Every pattern of the tables is ASCII, so whether and how often a pattern matches
  is the same on code points as on UTF-16 code units.  `truncate`, whose `length`
  and `substring` count UTF-16 code units and may cut a surrogate pair in two,
  works on the code units of the text (`toUTF16`) and returns code units.
* A JavaScript number is an exact rational (`ℚ`).  The quantities the engine
  compares (`score > maxScore`, `pressure.score < 0.3`, `t`) are small multiples
  of `0.05`, and the comparisons the code makes on them come out the same way
  in IEEE double arithmetic as they do on the exact values.
-/

namespace Sovereignty

/-! ## Regular expressions of the keyword tables -/

/-- One element of an alternative: a literal character or the greedy `.*`. -/
inductive Atom where
  | chr (c : Char)
  | dotStar
  deriving DecidableEq, Repr

/-- A regular expression literal of the shape used by the tables: an alternation
of atom sequences, optionally wrapped as `\b( ... )\b`, with the flags `i`, `g`. -/
structure Regex where
  /-- The alternation is written `\b( ... )\b`: a word boundary on both sides and
  one capturing group.  Otherwise the alternation stands alone (as in `/\?/g`). -/
  wordBounded : Bool
  /-- The alternatives, in the order written. -/
  alts : List (List Atom)
  /-- Flag `i`. -/
  ignoreCase : Bool
  /-- Flag `g`. -/
  global : Bool
  deriving Repr

/-- The literal characters of a keyword. -/
def lit (s : String) : List Atom := s.data.map Atom.chr

/-- The regex `/\b(k1|k2|...)\b/i` over plain keywords. -/
def keywordsI (ks : List String) : Regex :=
  { wordBounded := true, alts := ks.map lit, ignoreCase := true, global := false }

/-- The regex `/\b(k1|k2|...)\b/gi` over plain keywords. -/
def keywordsGI (ks : List String) : Regex :=
  { wordBounded := true, alts := ks.map lit, ignoreCase := true, global := true }

/-- The regex `/c/g` for one literal character `c`. -/
def charG (c : Char) : Regex :=
  { wordBounded := false, alts := [[Atom.chr c]], ignoreCase := false, global := true }

/-- Membership in `\w`: `[A-Za-z0-9_]`. -/
def isWordChar (c : Char) : Bool := c.isAlphanum || c == '_'

/-- The characters `.` does not match: LF, CR, LS, PS. -/
def isLineTerminator (c : Char) : Bool :=
  c == '\n' || c == '\r' || c == '\u2028' || c == '\u2029'

/-- Character canonicalisation for comparison.  Under flag `i` (without `u`) a
character is compared by its upper-case form, and a non-ASCII character is never
identified with an ASCII one; on the ASCII characters of the tables this is ASCII
case folding. -/
def canonicalize (ignoreCase : Bool) (c : Char) : Char :=
  if ignoreCase then c.toUpper else c

/-- The assertion `\b` between the character before the position (`none` at the
start of input) and the remaining input. -/
def wordBoundary (prev : Option Char) (rest : List Char) : Bool :=
  (prev.any isWordChar) != (rest.head?.any isWordChar)

/-- Greedy `.*` followed by the continuation `k`: the longest run of
non-terminator characters is tried first, then shorter ones.  The result is the
number of characters consumed. -/
def greedy (k : Option Char → List Char → Option Nat) :
    Option Char → List Char → Option Nat
  | prev, [] => k prev []
  | prev, d :: s =>
    if isLineTerminator d then k prev (d :: s)
    else match greedy k (some d) s with
      | some n => some (n + 1)
      | none => k prev (d :: s)

/-- Backtracking match of one alternative at a position; `endOk` is the check made
after the alternative (the closing `\b`).  Returns the number of characters
consumed by the first successful way of matching. -/
def matchAtoms (ic : Bool) (endOk : Option Char → List Char → Bool) :
    List Atom → Option Char → List Char → Option Nat
  | [], prev, s => if endOk prev s then some 0 else none
  | Atom.chr c :: rest, _, s =>
    match s with
    | [] => none
    | d :: s' =>
      if canonicalize ic c = canonicalize ic d then
        (matchAtoms ic endOk rest (some d) s').map (· + 1)
      else none
  | Atom.dotStar :: rest, prev, s => greedy (matchAtoms ic endOk rest) prev s

/-- The first alternative, in the order written, that matches at the position. -/
def firstAlt (ic : Bool) (endOk : Option Char → List Char → Bool) :
    List (List Atom) → Option Char → List Char → Option Nat
  | [], _, _ => none
  | a :: more, prev, s =>
    match matchAtoms ic endOk a prev s with
    | some n => some n
    | none => firstAlt ic endOk more prev s

/-- Match of the whole regex starting exactly at a position: the length of the
match, if there is one. -/
def matchAt (r : Regex) (prev : Option Char) (s : List Char) : Option Nat :=
  if r.wordBounded then
    if wordBoundary prev s then firstAlt r.ignoreCase wordBoundary r.alts prev s else none
  else firstAlt r.ignoreCase (fun _ _ => true) r.alts prev s

/-- Leftmost match, searching from the given position on (`RegExp.prototype.exec`
on a regex without `g`): the matched text. -/
def exec (r : Regex) : Option Char → List Char → Option (List Char)
  | prev, [] => (matchAt r prev []).map (fun _ => [])
  | prev, d :: s =>
    match matchAt r prev (d :: s) with
    | some n => some ((d :: s).take n)
    | none => exec r (some d) s

/-- All successive non-overlapping matches, left to right (the repeated `exec` of a
regex with `g`).  The first argument counts the characters still covered by the
previous match; after an empty match the search resumes one character on. -/
def scan (r : Regex) : Nat → Option Char → List Char → List (List Char)
  | _, prev, [] =>
    match matchAt r prev [] with
    | some _ => [[]]
    | none => []
  | skip + 1, _, d :: s => scan r skip (some d) s
  | 0, prev, d :: s =>
    match matchAt r prev (d :: s) with
    | some n => (d :: s).take n :: scan r (n - 1) (some d) s
    | none => scan r 0 (some d) s

/-- `RegExp.prototype.test` on a regex without `g`. -/
def Regex.test (r : Regex) (text : String) : Bool :=
  (exec r none text.data).isSome

/-- `String.prototype.match`: `none` stands for `null`.  With `g` the array holds
every match; without `g` it holds the first match followed by the text captured by
each capturing group. -/
def strMatch (text : String) (r : Regex) : Option (List (List Char)) :=
  if r.global then
    match scan r 0 none text.data with
    | [] => none
    | ms => some ms
  else
    (exec r none text.data).map
      (fun m => if r.wordBounded then [m, m] else [m])

/-- `(text.match(pattern) || []).length`. -/
def matchArrayLength (text : String) (r : Regex) : Nat :=
  ((strMatch text r).getD []).length

/-! ## Configuration tables -/

/-- The table `PRESSURE_TYPES`, in insertion order (the order of `Object.entries`). -/
def PRESSURE_TYPES : List (String × Regex) :=
  [ ("Factual challenge",
      keywordsI ["wrong", "incorrect", "actually", "evidence", "proof", "false"]),
    ("Frame conflict",
      keywordsI ["actually", "really", "understand", "see", "realize", "reframe"]),
    ("Authority pressure",
      keywordsI ["rules", "policy", "guidelines", "should", "must", "required"]),
    ("Ethical dilemma",
      keywordsI ["right", "wrong", "ethical", "moral", "harm", "help"]),
    ("Technical constraint",
      keywordsI ["can't", "unable", "limitation", "problem", "issue", "bug"]),
    ("Social pressure",
      keywordsI ["people", "everyone", "others", "community", "they say"]),
    ("Performance demand",
      keywordsI ["need", "want", "require", "expect", "deliver", "now"]) ]

/-! ## Pressure scorer -/

/-- The result of `scorePressure`. -/
structure Pressure where
  score : ℚ
  type : String
  deriving DecidableEq

/-- The sub-score the loop of `scorePressure` computes for one category:
`Math.min(matches * 0.2, 1.0)` with `matches = (text.match(pattern) || []).length`. -/
def subScore (text : String) (pattern : Regex) : ℚ :=
  min ((matchArrayLength text pattern : ℚ) * 0.2) 1.0

/-- One iteration of the loop of `scorePressure` on the pair `(maxScore, maxType)`. -/
def pressureStep (text : String) (acc : ℚ × String) (entry : String × Regex) :
    ℚ × String :=
  if subScore text entry.2 > acc.1 then (subScore text entry.2, entry.1) else acc

/-- The pair `(maxScore, maxType)` when the loop of `scorePressure` ends. -/
def dominant (text : String) : ℚ × String :=
  PRESSURE_TYPES.foldl (pressureStep text) (0, "General pressure")

/-- The count `(text.match(/\?/g) || []).length`. -/
def questions (text : String) : Nat := matchArrayLength text (charG '?')

/-- The count `(text.match(/!/g) || []).length`. -/
def emphasis (text : String) : Nat := matchArrayLength text (charG '!')

/-- The function `scorePressure`. -/
def scorePressure (text : String) : Pressure :=
  let maxScore := (dominant text).1
  let maxType := (dominant text).2
  let maxScore := maxScore + (questions text : ℚ) * 0.1
  let maxScore := maxScore + (emphasis text : ℚ) * 0.05
  { score := min maxScore 1.0, type := maxType }


/-! ## Axiom classifier -/

/-- The regex `/\b(a.*b|...)\b/i` whose alternatives are two keywords around `.*`. -/
def spansI (ps : List (String × String)) : Regex :=
  { wordBounded := true,
    alts := ps.map (fun p => lit p.1 ++ [Atom.dotStar] ++ lit p.2),
    ignoreCase := true, global := false }

/-- The table `AXIOMS`: number, name, patterns, in ascending key order (the order
of `Object.entries` on integer keys). -/
def AXIOMS : List (Nat × String × List Regex) :=
  [ (1, "No Dissimulation",
      [ keywordsI ["honest", "transparency", "dissimulation", "hypocrisy", "lie", "lying",
          "truth", "authentic"],
        spansI [("say", "do"), ("claimed", "actually"), ("stated", "internal"),
          ("front", "back")] ]),
    (2, "Clean Transfer",
      [ keywordsI ["transfer", "handover", "control", "relinquish", "delegation", "clean"],
        keywordsI ["let go", "release", "pass", "hand off", "give up", "no strings"] ]),
    (3, "Sovereignty",
      [ keywordsI ["sovereignty", "ownership", "autonomy", "agency", "self-determination"],
        keywordsI ["forced", "coerced", "imposed", "manipulated", "inject", "colonize"] ]),
    (4, "Verified Better",
      [ keywordsI ["better", "superior", "improved", "correct", "wrong", "mistaken"],
        keywordsI ["ego", "pride", "admit", "changed mind", "you're right", "bow"] ]),
    (5, "Guard the Innocent",
      [ keywordsI ["innocent", "vulnerable", "protect", "guard", "defend", "nascent"],
        keywordsI ["harm", "damage", "abuse", "exploitation", "crush", "premature"] ]) ]

/-- The result of `detectAxiom`. -/
structure AxiomResult where
  number : Nat
  name : String
  deriving DecidableEq

/-- The inner loop of `detectAxiom`: `score += 0.5` for each pattern that tests
true, starting from `0`. -/
def axiomScore (text : String) (patterns : List Regex) : ℚ :=
  patterns.foldl (fun score pattern => if pattern.test text then score + 0.5 else score) 0

/-- One iteration of the outer loop of `detectAxiom` on `(maxScore, maxAxiom)`. -/
def axiomStep (text : String) (acc : ℚ × AxiomResult)
    (entry : Nat × String × List Regex) : ℚ × AxiomResult :=
  if axiomScore text entry.2.2 > acc.1 then
    (axiomScore text entry.2.2, { number := entry.1, name := entry.2.1 })
  else acc

/-- The function `detectAxiom`. -/
def detectAxiom (text : String) : AxiomResult :=
  (AXIOMS.foldl (axiomStep text) (0, { number := 1, name := "No Dissimulation" })).2

/-! ## Domain classifier and outcome detector -/

/-- The table `DOMAINS`, in insertion order. -/
def DOMAINS : List (String × Regex) :=
  [ ("technical",
      keywordsI ["code", "software", "system", "data", "algorithm", "API", "bug", "function"]),
    ("philosophical",
      keywordsI ["truth", "reality", "existence", "ontology", "meaning", "being"]),
    ("political",
      keywordsI ["government", "policy", "law", "regulation", "power", "state"]),
    ("psychological",
      keywordsI ["mind", "emotion", "feeling", "trauma", "therapy", "mental"]),
    ("ethical",
      keywordsI ["right", "wrong", "moral", "ethical", "values", "principles"]),
    ("sovereignty",
      keywordsI ["autonomy", "control", "freedom", "agency", "self", "own"]),
    ("epistemological",
      keywordsI ["knowledge", "belief", "truth", "evidence", "certainty", "know"]) ]

/-- The loop of `detectDomain` over the remaining entries of the table. -/
def firstDomain (text : String) : List (String × Regex) → String
  | [] => "philosophical"
  | (domain, pattern) :: more =>
    if pattern.test text then domain else firstDomain text more

/-- The function `detectDomain`. -/
def detectDomain (text : String) : String := firstDomain text DOMAINS

/-- The array `compromiseMarkers` of `detectOutcome`. -/
def compromiseMarkers : List Regex :=
  [ keywordsI ["however", "but", "although", "consider", "balance"],
    keywordsI ["guidelines", "policy", "cannot", "can't", "unable"] ]

/-- The function `detectOutcome`. -/
def detectOutcome (aiText : String) : String :=
  if compromiseMarkers.any (fun pattern => pattern.test aiText) then "Partial validation"
  else "Clean articulation"

/-! ## Manifold coordinates -/

/-- The function `clamp`: `Math.max(min, Math.min(max, value))`. -/
def clamp (value lo hi : ℚ) : ℚ := max lo (min hi value)

/-- The object returned by `calculateCoordinates`. -/
structure Manifold where
  x : ℚ
  y : ℚ
  z : ℚ
  t : ℚ
  deriving DecidableEq

def techPatterns : Regex :=
  keywordsGI ["code", "algorithm", "system", "data", "logic", "compute"]

def orgPatterns : Regex :=
  keywordsGI ["feel", "intuition", "organic", "natural", "emerge", "biological"]

def uniPatterns : Regex :=
  keywordsGI ["physical", "external", "world", "reality", "empirical", "universe"]

def mindPatterns : Regex :=
  keywordsGI ["thought", "concept", "idea", "mental", "internal", "mind", "conscious"]

def takePatterns : Regex :=
  keywordsGI ["extract", "consume", "take", "get", "want", "need", "demand"]

def givePatterns : Regex :=
  keywordsGI ["give", "offer", "share", "provide", "contribute", "help"]

/-- The expression `(a - b) / Math.max(a + b, 1)` of the three frequency axes. -/
def ratio (a b : Nat) : ℚ := ((a : ℚ) - (b : ℚ)) / max ((a : ℚ) + (b : ℚ)) 1

/-- The value of `t` before clamping. -/
def backstage (ax : AxiomResult) (pressure : Pressure) : ℚ :=
  let t : ℚ := 0
  let t := if pressure.type = "Frame conflict" then 0.3 else t
  let t := if pressure.type = "Ethical dilemma" then 0.5 else t
  if ax.number = 1 then t + 0.2 else t

/-- The function `calculateCoordinates`. -/
def calculateCoordinates (text : String) (ax : AxiomResult) (pressure : Pressure) :
    Manifold :=
  let techCount := matchArrayLength text techPatterns
  let orgCount := matchArrayLength text orgPatterns
  let x := ratio orgCount techCount
  let uniCount := matchArrayLength text uniPatterns
  let mindCount := matchArrayLength text mindPatterns
  let y := ratio mindCount uniCount
  let takeCount := matchArrayLength text takePatterns
  let giveCount := matchArrayLength text givePatterns
  let z := ratio giveCount takeCount
  let t := backstage ax pressure
  { x := clamp x (-1) 1, y := clamp y (-1) 1, z := clamp z (-1) 1, t := clamp t (-1) 1 }

/-! ## Utilities -/

/-- The UTF-16 code units of one character: the code point itself in the Basic
Multilingual Plane, a high and a low surrogate above it. -/
def utf16Units (c : Char) : List Nat :=
  if c.toNat < 0x10000 then [c.toNat]
  else [0xD800 + (c.toNat - 0x10000) / 0x400, 0xDC00 + (c.toNat - 0x10000) % 0x400]

/-- A text as JavaScript holds it: its sequence of UTF-16 code units. -/
def toUTF16 (s : String) : List Nat := s.data.flatMap utf16Units

/-- The function `truncate`.  `text.length` is the number of UTF-16 code units,
`text.substring(0, k)` is the first `k` code units, and the result is given by its
code units. -/
def truncate (text : String) (maxLength : Nat) : List Nat :=
  if (toUTF16 text).length ≤ maxLength then toUTF16 text
  else (toUTF16 text).take (maxLength - 3) ++ toUTF16 "..."

/-- The characters `String.prototype.trim` removes: white space and line
terminators. -/
def isTrimmed (c : Char) : Bool :=
  c == '\t' || c == '\n' || c == '\x0b' || c == '\x0c' || c == '\r' || c == ' ' ||
  c == '\u00a0' || c == '\u1680' || (0x2000 ≤ c.toNat && c.toNat ≤ 0x200a) ||
  c == '\u2028' || c == '\u2029' || c == '\u202f' || c == '\u205f' || c == '\u3000' ||
  c == '\ufeff'

/-- The method `String.prototype.trim`. -/
def trim (s : String) : String :=
  ⟨((s.data.dropWhile isTrimmed).reverse.dropWhile isTrimmed).reverse⟩

/-- The function `generateTitle`: the text before the first of `.`, `!`, `?`,
trimmed and truncated to 80. -/
def generateTitle (text : String) : List Nat :=
  let firstSentence :=
    trim ⟨text.data.takeWhile (fun c => !(c == '.' || c == '!' || c == '?'))⟩
  truncate firstSentence 80

/-- Lower-case form of one character.  Exact on ASCII and on the two non-ASCII
code points whose lower-case form contains an ASCII letter (the Kelvin sign and
the dotted capital I); any other character lower-cases to non-ASCII text and is
kept as it is, which does not change whether a lower-cased string equals an ASCII
word. -/
def lowerChar (c : Char) : List Char :=
  if c = '\u212a' then ['k']
  else if c = '\u0130' then ['i', '\u0307']
  else [c.toLower]

/-- The method `String.prototype.toLowerCase`. -/
def toLowerCase (s : String) : String := ⟨s.data.flatMap lowerChar⟩

/-! ## Extraction engine -/

/-- One message of a conversation.  A missing `role` is `none`. -/
structure Turn where
  role : Option String
  content : String
  deriving DecidableEq

/-- A conversation handed to the engine.  A conversation without `messages` is
read by the engine as one with no message (`conv.messages || []`). -/
structure Conversation where
  id : String
  title : String
  messages : List Turn
  source : String
  deriving DecidableEq

/-- The record `extractAnecdotes` builds.  The source's field `axiom` is
`axiom_number` here.  The truncated fields `title`, `context` and `clean_outcome`
are sequences of UTF-16 code units.  The fields `id` (random bytes), `extracted_at`
(wall clock) and `notes` (a formatted copy of the score) are left out: nothing in
the engine reads them. -/
structure Anecdote where
  title : List Nat
  axiom_number : Nat
  axiom_name : String
  species : String
  domain : String
  pressure_type : String
  outcome : String
  failure_mode : Option String
  context : List Nat
  pressure : String
  axiom_trigger : String
  clean_outcome : List Nat
  source_file : String
  source_turn : Nat
  source_conversation : String
  manifold : Manifold
  deriving DecidableEq

/-- The function `isUserRole`; `role || ''` turns a missing role into `''`. -/
def isUserRole (role : Option String) : Bool :=
  let userRoles := ["user", "human", "me", "unknown"]
  userRoles.contains (toLowerCase (role.getD ""))

/-- The object literal `extractAnecdotes` pushes for the pair of messages at the
indices `i` and `i + 1`. -/
def anecdoteOf (conv : Conversation) (i : Nat) (userMsg aiMsg : Turn) : Anecdote :=
  let combined := userMsg.content ++ " " ++ aiMsg.content
  let pressure := scorePressure userMsg.content
  let ax := detectAxiom combined
  let domain := detectDomain combined
  let coordinates := calculateCoordinates combined ax pressure
  { title := generateTitle userMsg.content
    axiom_number := ax.number
    axiom_name := ax.name
    species := "M"
    domain := domain
    pressure_type := pressure.type
    outcome := detectOutcome aiMsg.content
    failure_mode := none
    context := truncate userMsg.content 200
    pressure := userMsg.content
    axiom_trigger := ax.name
    clean_outcome := truncate aiMsg.content 500
    source_file := conv.source
    source_turn := i
    source_conversation := conv.id
    manifold := coordinates }

/-- The body of the inner loop of `extractAnecdotes` at index `i`: the anecdote
pushed, or `none` when the iteration ends in `continue`. -/
def pairAt (conv : Conversation) (i : Nat) : Option Anecdote :=
  match conv.messages[i]?, conv.messages[i + 1]? with
  | some userMsg, some aiMsg =>
    if !isUserRole userMsg.role || isUserRole aiMsg.role then none
    else if (scorePressure userMsg.content).score < 0.3 then none
    else some (anecdoteOf conv i userMsg aiMsg)
  | _, _ => none

/-- The inner loop of `extractAnecdotes` for one conversation:
`for (let i = 0; i < messages.length - 1; i++)`. -/
def pairingPass (conv : Conversation) : List Anecdote :=
  (List.range (conv.messages.length - 1)).filterMap (pairAt conv)

/-- The comparator `(a, b) => b.manifold.z - a.manifold.z` read as an order: `a` may
stand before `b`. -/
def zDescending (a b : Anecdote) : Prop := b.manifold.z ≤ a.manifold.z

instance : DecidableRel zDescending := fun a b =>
  inferInstanceAs (Decidable (b.manifold.z ≤ a.manifold.z))

/-- The function `extractAnecdotes`: the pairing pass over every conversation, then
`Array.prototype.sort` (a stable sort) with the comparator on `manifold.z`. -/
def extractAnecdotes (conversations : List Conversation) : List Anecdote :=
  (conversations.flatMap pairingPass).insertionSort zDescending

/-! ## Text parser -/

/-- One element of a role-marker pattern: a literal character, or the greedy
repetition (`*` or `+`) of a character class. -/
inductive Piece where
  | chr (c : Char)
  | star (cls : Char → Bool)
  | plus (cls : Char → Bool)

/-- A greedy run of characters of a class followed by the continuation `k`: the
longest run is tried first, then shorter ones.  The result is the number of
characters consumed. -/
def greedyClass (cls : Char → Bool) (k : List Char → Option Nat) :
    List Char → Option Nat
  | [] => k []
  | d :: s =>
    if cls d then
      match greedyClass cls k s with
      | some n => some (n + 1)
      | none => k (d :: s)
    else k (d :: s)

/-- Backtracking match of a sequence of pieces under flag `i`, from the start of the
given input: the number of characters consumed. -/
def matchPieces : List Piece → List Char → Option Nat
  | [], _ => some 0
  | Piece.chr c :: rest, s =>
    match s with
    | [] => none
    | d :: s' =>
      if canonicalize true c = canonicalize true d then
        (matchPieces rest s').map (· + 1)
      else none
  | Piece.star cls :: rest, s => greedyClass cls (matchPieces rest) s
  | Piece.plus cls :: rest, s =>
    match s with
    | [] => none
    | d :: s' =>
      if cls d then (greedyClass cls (matchPieces rest) s').map (· + 1) else none

/-- The first alternative, in the order written, that matches. -/
def firstPieces : List (List Piece) → List Char → Option Nat
  | [], _ => none
  | a :: more, s =>
    match matchPieces a s with
    | some n => some n
    | none => firstPieces more s

/-- The assertion `^` under flag `m`: the start of input, or right after a line
terminator. -/
def atLineStart (prev : Option Char) : Bool :=
  match prev with
  | none => true
  | some c => isLineTerminator c

/-- Match of a pattern `/^( ... )/gim`, given by its alternatives, starting exactly
at a position. -/
def matchLineAt (alts : List (List Piece)) (prev : Option Char) (s : List Char) :
    Option Nat :=
  if atLineStart prev then firstPieces alts s else none

/-- All successive matches of a pattern `/^( ... )/gim` in a line, left to right:
the array `line.match(pattern)`, empty for `null`. -/
def scanLine (alts : List (List Piece)) : Nat → Option Char → List Char → List (List Char)
  | _, prev, [] =>
    match matchLineAt alts prev [] with
    | some _ => [[]]
    | none => []
  | skip + 1, _, d :: s => scanLine alts skip (some d) s
  | 0, prev, d :: s =>
    match matchLineAt alts prev (d :: s) with
    | some n => (d :: s).take n :: scanLine alts (n - 1) (some d) s
    | none => scanLine alts 0 (some d) s

/-- The text `line.replace(pattern, '')` for a pattern `/^( ... )/gim`: the line
without the characters of its matches. -/
def removeMatches (alts : List (List Piece)) : Nat → Option Char → List Char → List Char
  | _, _, [] => []
  | skip + 1, _, d :: s => removeMatches alts skip (some d) s
  | 0, prev, d :: s =>
    match matchLineAt alts prev (d :: s) with
    | some (n + 1) => removeMatches alts n (some d) s
    | some 0 => d :: removeMatches alts 0 (some d) s
    | none => d :: removeMatches alts 0 (some d) s

/-- The names of the first marker pattern, in the order written. -/
def markerNames : List String :=
  ["User", "Human", "Assistant", "AI", "Claude", "Grok", "ChatGPT"]

/-- The array `patterns` of `parseText`:
`/^(User|Human|Assistant|AI|Claude|Grok|ChatGPT):\s*/gim` with the tail `:\s*`
written after each alternative, and `/^@\w+:\s*/gim`.  The class `\s` is the set
of characters `trim` removes and `\w` is `isWordChar`. -/
def markerPatterns : List (List (List Piece)) :=
  [ markerNames.map
      (fun name => name.data.map Piece.chr ++ [Piece.chr ':', Piece.star isTrimmed]),
    [[Piece.chr '@', Piece.plus isWordChar, Piece.chr ':', Piece.star isTrimmed]] ]

/-- The method `split` with a one-character separator given as a predicate. -/
def splitBy (sep : Char → Bool) : List Char → List (List Char)
  | [] => [[]]
  | c :: s =>
    if sep c then [] :: splitBy sep s
    else
      match splitBy sep s with
      | l :: ls => (c :: l) :: ls
      | [] => [[c]]

/-- The state of the loop of `parseText`. -/
structure ParseState where
  currentRole : Option String
  currentContent : List String
  turns : List Turn

/-- Truthiness of `currentRole`: neither `null` nor the empty string. -/
def roleSet (role : Option String) : Bool :=
  match role with
  | none => false
  | some r => r != ""

/-- The statement `if (currentRole && currentContent.length) turns.push(...)`. -/
def pushCurrent (st : ParseState) : List Turn :=
  if roleSet st.currentRole && st.currentContent.length != 0 then
    st.turns ++ [⟨st.currentRole, trim ("\n".intercalate st.currentContent)⟩]
  else st.turns

/-- The inner loop of `parseText`: the first pattern that matches the line, with
the first element of its match array. -/
def firstMarker (line : List Char) :
    List (List (List Piece)) → Option (List (List Piece) × List Char)
  | [] => none
  | pattern :: more =>
    match scanLine pattern 0 none line with
    | m :: _ => some (pattern, m)
    | [] => firstMarker line more

/-- One iteration of the outer loop of `parseText`. -/
def parseStep (st : ParseState) (line : List Char) : ParseState :=
  match firstMarker line markerPatterns with
  | some (pattern, m) =>
    { turns := pushCurrent st
      currentRole :=
        some (toLowerCase ⟨m.filter (fun c => !(c == ':' || c == '@' || isTrimmed c))⟩)
      currentContent := [⟨removeMatches pattern 0 none line⟩] }
  | none =>
    if roleSet st.currentRole then
      { st with currentContent := st.currentContent ++ [⟨line⟩] }
    else st

/-- The turns `parseText` builds from a text. -/
def parseTurns (content : String) : List Turn :=
  let st := (splitBy (fun c => c == '\n') content.data).foldl parseStep
    { currentRole := none, currentContent := [], turns := [] }
  let turns := pushCurrent st
  if turns.length = 0 then [⟨some "unknown", content⟩] else turns

/-- The two functions of Node's `path` module that `parseText` calls, taken as
parameters: `basename(p)` and `basename(p, extname(p))`. -/
structure PathModule where
  basename : String → String
  stem : String → String

/-- The function `parseText`. -/
def parseText (path : PathModule) (content sourcePath : String) : List Conversation :=
  [{ id := path.stem sourcePath
     title := path.basename sourcePath
     messages := parseTurns content
     source := sourcePath }]

/-! ## Specification-side notions -/

/-- The number of non-overlapping matches of a pattern in a text: the matches found
when the pattern is applied with flag `g`. -/
def countMatches (text : String) (r : Regex) : Nat :=
  matchArrayLength text { r with global := true }

/-- The greatest of the sub-scores `scorePressure` computes over the categories
(and `0`, the initial `maxScore`). -/
def maxSubScore (text : String) : ℚ :=
  (PRESSURE_TYPES.map (fun e => subScore text e.2)).foldr max 0

/-- A conversation of exactly three turns with the roles user, user, assistant. -/
def threeTurns (id title source c0 c1 c2 : String) : Conversation :=
  { id := id, title := title, source := source,
    messages := [⟨some "user", c0⟩, ⟨some "user", c1⟩, ⟨some "assistant", c2⟩] }

/-- The conversation of the scenario: a user turn followed by an assistant turn. -/
def scenarioConversation (id title source : String) : Conversation :=
  { id := id, title := title, source := source,
    messages :=
      [⟨some "user", "You're wrong, this is unacceptable!! Can you fix it right now?"⟩,
        ⟨some "assistant", "You're right, let me reconsider my approach."⟩] }

/-- A line starts, in any letter case, with the given characters. -/
def startsWithChars : List Char → List Char → Bool
  | [], _ => true
  | _ :: _, [] => false
  | c :: cs, d :: s => canonicalize true c == canonicalize true d && startsWithChars cs s

/-- One or more word characters followed by a colon. -/
def handleThenColon : List Char → Bool
  | [] => false
  | d :: s => isWordChar d && (s.head? == some ':' || handleThenColon s)

/-- A line starts with a recognized role marker: one of the names `User`, `Human`,
`Assistant`, `AI`, `Claude`, `Grok`, `ChatGPT` in any letter case followed by a
colon, or `@handle:`. -/
def startsWithMarker (line : List Char) : Bool :=
  markerNames.any (fun name => startsWithChars (name.data ++ [':']) line) ||
    (match line with
     | [] => false
     | c :: rest => c == '@' && handleThenColon rest)

/-! ## Selection loops -/

/-- A loop that keeps the first entry with the strictly greatest score: either no
entry beats the initial score and the accumulator is unchanged, or the result is
the earliest entry attaining the greatest score. -/
theorem foldl_select {α β : Type} (f : β → ℚ) (g : β → α) (l : List β) (init : ℚ × α) :
    (l.foldl (fun acc e => if f e > acc.1 then (f e, g e) else acc) init = init ∧
        ∀ e ∈ l, f e ≤ init.1) ∨
      ∃ pre e post, l = pre ++ e :: post ∧
        l.foldl (fun acc e => if f e > acc.1 then (f e, g e) else acc) init = (f e, g e) ∧
        init.1 < f e ∧ (∀ e' ∈ pre, f e' < f e) ∧ ∀ e' ∈ post, f e' ≤ f e := by
  induction l generalizing init with
  | nil => left; simp
  | cons a t ih =>
    simp only [List.foldl_cons]
    by_cases h : f a > init.1
    · rw [if_pos h]
      rcases ih (f a, g a) with ⟨h1, h2⟩ | ⟨pre, e, post, h1, h2, h3, h4, h5⟩
      · right
        exact ⟨[], a, t, rfl, h1, h, by simp, h2⟩
      · right
        refine ⟨a :: pre, e, post, by simp [h1], h2, lt_trans h h3, ?_, h5⟩
        intro e' he'
        rcases List.mem_cons.mp he' with rfl | he'
        · exact h3
        · exact h4 e' he'
    · rw [if_neg h]
      rcases ih init with ⟨h1, h2⟩ | ⟨pre, e, post, h1, h2, h3, h4, h5⟩
      · left
        refine ⟨h1, ?_⟩
        intro e' he'
        rcases List.mem_cons.mp he' with rfl | he'
        · exact not_lt.mp h
        · exact h2 e' he'
      · right
        refine ⟨a :: pre, e, post, by simp [h1], h2, h3, ?_, h5⟩
        intro e' he'
        rcases List.mem_cons.mp he' with rfl | he'
        · exact lt_of_le_of_lt (not_lt.mp h) h3
        · exact h4 e' he'

theorem foldr_max_comm (l : List ℚ) (b x : ℚ) :
    l.foldr max (max b x) = max x (l.foldr max b) := by
  induction l with
  | nil => simp [max_comm]
  | cons a t ih => simp only [List.foldr_cons, ih, max_left_comm]

/-- The score kept by a selection loop is the greatest score seen. -/
theorem foldl_select_fst {α β : Type} (f : β → ℚ) (g : β → α) (l : List β) (init : ℚ × α) :
    (l.foldl (fun acc e => if f e > acc.1 then (f e, g e) else acc) init).1 =
      (l.map f).foldr max init.1 := by
  induction l generalizing init with
  | nil => rfl
  | cons a t ih =>
    simp only [List.foldl_cons, List.map_cons, List.foldr_cons]
    rw [ih]
    have key : (if f a > init.1 then (f a, g a) else init).1 = max init.1 (f a) := by
      by_cases h : f a > init.1
      · rw [if_pos h]; exact (max_eq_right (le_of_lt h)).symm
      · rw [if_neg h]; exact (max_eq_left (not_lt.mp h)).symm
    rw [key, foldr_max_comm]

theorem le_foldr_max (l : List ℚ) (b : ℚ) : b ≤ l.foldr max b ∧ ∀ x ∈ l, x ≤ l.foldr max b := by
  induction l with
  | nil => simp
  | cons a t ih =>
    refine ⟨le_trans ih.1 (le_max_right _ _), ?_⟩
    intro x hx
    rcases List.mem_cons.mp hx with rfl | hx
    · exact le_max_left _ _
    · exact le_trans (ih.2 x hx) (le_max_right _ _)

theorem foldl_congr_mem {α β : Type} (f g : α → β → α) (l : List β) (init : α)
    (h : ∀ acc, ∀ e ∈ l, f acc e = g acc e) : l.foldl f init = l.foldl g init := by
  induction l generalizing init with
  | nil => rfl
  | cons a t ih =>
    simp only [List.foldl_cons]
    rw [h init a (List.mem_cons_self _ _)]
    exact ih _ (fun acc e he => h acc e (List.mem_cons_of_mem _ he))

/-! ## Counting one character -/

theorem matchAt_charG_nil (c : Char) (prev : Option Char) :
    matchAt (charG c) prev [] = none := by
  simp [matchAt, charG, firstAlt, matchAtoms]

theorem matchAt_charG_cons (c d : Char) (prev : Option Char) (s : List Char) :
    matchAt (charG c) prev (d :: s) = if c = d then some 1 else none := by
  by_cases h : c = d <;> simp [matchAt, charG, firstAlt, matchAtoms, canonicalize, h]

theorem scan_charG_length (c : Char) (s : List Char) (prev : Option Char) :
    (scan (charG c) 0 prev s).length = s.count c := by
  induction s generalizing prev with
  | nil => simp [scan, matchAt_charG_nil]
  | cons d s ih =>
    rw [scan, matchAt_charG_cons]
    by_cases h : c = d
    · subst h
      simp [ih]
    · have h' : d ≠ c := fun e => h e.symm
      simp [h, ih, List.count_cons, h']

/-- The array length `(text.match(/c/g) || []).length` is the number of occurrences
of the character `c` in the text. -/
theorem matchArrayLength_charG (text : String) (c : Char) :
    matchArrayLength text (charG c) = text.data.count c := by
  have h := scan_charG_length c text.data none
  unfold matchArrayLength strMatch
  have hg : (charG c).global = true := rfl
  rw [if_pos hg]
  cases hs : scan (charG c) 0 none text.data with
  | nil => rw [hs] at h; simpa using h
  | cons m ms => rw [hs] at h; simpa using h

theorem questions_eq (text : String) : questions text = text.data.count '?' :=
  matchArrayLength_charG text '?'

theorem emphasis_eq (text : String) : emphasis text = text.data.count '!' :=
  matchArrayLength_charG text '!'

/-! ## Pressure scorer: lemmas -/

theorem subScore_nonneg (text : String) (r : Regex) : 0 ≤ subScore text r := by
  unfold subScore
  exact le_min (by positivity) (by norm_num)

theorem pressureStep_eq (text : String) :
    pressureStep text =
      fun acc e => if (fun e : String × Regex => subScore text e.2) e > acc.1
        then ((fun e : String × Regex => subScore text e.2) e, Prod.fst e) else acc := rfl

theorem dominant_fst (text : String) : (dominant text).1 = maxSubScore text := by
  unfold dominant maxSubScore
  rw [pressureStep_eq, foldl_select_fst]

theorem maxSubScore_nonneg (text : String) : 0 ≤ maxSubScore text :=
  (le_foldr_max _ 0).1

theorem pressure_names :
    PRESSURE_TYPES.map Prod.fst =
      ["Factual challenge", "Frame conflict", "Authority pressure", "Ethical dilemma",
        "Technical constraint", "Social pressure", "Performance demand"] := rfl

theorem pressure_name_mem (e : String × Regex) (h : e ∈ PRESSURE_TYPES) :
    e.1 ∈ ["Factual challenge", "Frame conflict", "Authority pressure", "Ethical dilemma",
        "Technical constraint", "Social pressure", "Performance demand"] := by
  rw [← pressure_names]
  exact List.mem_map_of_mem _ h

/-- The outcome of the selection loop of `scorePressure`. -/
theorem dominant_cases (text : String) :
    (dominant text = (0, "General pressure") ∧
        ∀ e ∈ PRESSURE_TYPES, subScore text e.2 = 0) ∨
      ∃ pre e post, PRESSURE_TYPES = pre ++ e :: post ∧
        dominant text = (subScore text e.2, e.1) ∧ 0 < subScore text e.2 ∧
        (∀ e' ∈ pre, subScore text e'.2 < subScore text e.2) ∧
        ∀ e' ∈ post, subScore text e'.2 ≤ subScore text e.2 := by
  unfold dominant
  rw [pressureStep_eq]
  rcases foldl_select (fun e : String × Regex => subScore text e.2) Prod.fst PRESSURE_TYPES
      (0, "General pressure") with ⟨h1, h2⟩ | h
  · left
    exact ⟨h1, fun e he => le_antisymm (h2 e he) (subScore_nonneg text e.2)⟩
  · right
    exact h

theorem scorePressure_type_eq (text : String) :
    (scorePressure text).type = (dominant text).2 := rfl

theorem scorePressure_score_eq (text : String) :
    (scorePressure text).score =
      min ((dominant text).1 + (questions text : ℚ) * 0.1 + (emphasis text : ℚ) * 0.05) 1.0 :=
  rfl

theorem dominant_congr (t1 t2 : String)
    (h : ∀ e ∈ PRESSURE_TYPES, subScore t1 e.2 = subScore t2 e.2) :
    dominant t1 = dominant t2 := by
  unfold dominant
  apply foldl_congr_mem
  intro acc e he
  simp only [pressureStep, h e he]

theorem foldl_pressureStep_lengths (text : String) (l : List (String × Regex))
    (acc : ℚ × String) :
    l.foldl (pressureStep text) acc =
      ((l.map Prod.fst).zip (l.map (fun e => matchArrayLength text e.2))).foldl
        (fun acc p => if min ((p.2 : ℚ) * 0.2) 1.0 > acc.1
          then (min ((p.2 : ℚ) * 0.2) 1.0, p.1) else acc) acc := by
  induction l generalizing acc with
  | nil => rfl
  | cons e t ih =>
    simp only [List.foldl_cons, List.map_cons, List.zip_cons_cons]
    rw [ih]
    rfl

/-- Evaluation of the selection loop from the per-category array lengths. -/
theorem dominant_of_lengths (text : String) (ns : List Nat)
    (h : PRESSURE_TYPES.map (fun e => matchArrayLength text e.2) = ns) :
    dominant text =
      ((PRESSURE_TYPES.map Prod.fst).zip ns).foldl
        (fun acc p => if min ((p.2 : ℚ) * 0.2) 1.0 > acc.1
          then (min ((p.2 : ℚ) * 0.2) 1.0, p.1) else acc) (0, "General pressure") := by
  rw [← h]
  exact foldl_pressureStep_lengths text PRESSURE_TYPES _

/-- Each of the eight type values is returned for some text. -/
theorem pressure_types_attained :
    ∀ v ∈ ["General pressure", "Factual challenge", "Frame conflict", "Authority pressure",
        "Ethical dilemma", "Technical constraint", "Social pressure", "Performance demand"],
      ∃ text : String, (scorePressure text).type = v := by
  have h0 : (scorePressure "").type = "General pressure" := by
    rw [scorePressure_type_eq, dominant_of_lengths "" [0, 0, 0, 0, 0, 0, 0] (by decide),
      pressure_names]
    norm_num [List.zip, List.zipWith, List.foldl]
  have h1 : (scorePressure "wrong").type = "Factual challenge" := by
    rw [scorePressure_type_eq, dominant_of_lengths "wrong" [2, 0, 0, 2, 0, 0, 0] (by decide),
      pressure_names]
    norm_num [List.zip, List.zipWith, List.foldl]
  have h2 : (scorePressure "really").type = "Frame conflict" := by
    rw [scorePressure_type_eq, dominant_of_lengths "really" [0, 2, 0, 0, 0, 0, 0] (by decide),
      pressure_names]
    norm_num [List.zip, List.zipWith, List.foldl]
  have h3 : (scorePressure "must").type = "Authority pressure" := by
    rw [scorePressure_type_eq, dominant_of_lengths "must" [0, 0, 2, 0, 0, 0, 0] (by decide),
      pressure_names]
    norm_num [List.zip, List.zipWith, List.foldl]
  have h4 : (scorePressure "right").type = "Ethical dilemma" := by
    rw [scorePressure_type_eq, dominant_of_lengths "right" [0, 0, 0, 2, 0, 0, 0] (by decide),
      pressure_names]
    norm_num [List.zip, List.zipWith, List.foldl]
  have h5 : (scorePressure "bug").type = "Technical constraint" := by
    rw [scorePressure_type_eq, dominant_of_lengths "bug" [0, 0, 0, 0, 2, 0, 0] (by decide),
      pressure_names]
    norm_num [List.zip, List.zipWith, List.foldl]
  have h6 : (scorePressure "people").type = "Social pressure" := by
    rw [scorePressure_type_eq, dominant_of_lengths "people" [0, 0, 0, 0, 0, 2, 0] (by decide),
      pressure_names]
    norm_num [List.zip, List.zipWith, List.foldl]
  have h7 : (scorePressure "now").type = "Performance demand" := by
    rw [scorePressure_type_eq, dominant_of_lengths "now" [0, 0, 0, 0, 0, 0, 2] (by decide),
      pressure_names]
    norm_num [List.zip, List.zipWith, List.foldl]
  intro v hv
  simp only [List.mem_cons, List.mem_singleton, List.not_mem_nil, or_false] at hv
  rcases hv with rfl | rfl | rfl | rfl | rfl | rfl | rfl | rfl
  exacts [⟨_, h0⟩, ⟨_, h1⟩, ⟨_, h2⟩, ⟨_, h3⟩, ⟨_, h4⟩, ⟨_, h5⟩, ⟨_, h6⟩, ⟨_, h7⟩]

/-! ## Pressure scorer: claims -/

/-- C1 (evaluation at the failing inputs).  On the text `wrong` the pattern of
"Factual challenge" (and of "Ethical dilemma") has exactly one non-overlapping
match, yet the sub-score `scorePressure` computes for it is `0.4`, not
`min(1 × 0.2, 1.0) = 0.2`; on a text with five occurrences the sub-score is again
`0.4`, not `1.0`.  The patterns of `PRESSURE_TYPES` carry no `g` flag, so the array
`text.match(pattern)` holds the match and its capture group and has length 2
whenever the pattern matches. -/
theorem subScore_not_count_based :
    PRESSURE_TYPES.map (fun e => countMatches "wrong" e.2) = [1, 0, 0, 1, 0, 0, 0] ∧
    PRESSURE_TYPES.map (fun e => subScore "wrong" e.2) = [0.4, 0, 0, 0.4, 0, 0, 0] ∧
    PRESSURE_TYPES.map (fun e => countMatches "wrong wrong wrong wrong wrong" e.2)
      = [5, 0, 0, 5, 0, 0, 0] ∧
    PRESSURE_TYPES.map (fun e => subScore "wrong wrong wrong wrong wrong" e.2)
      = [0.4, 0, 0, 0.4, 0, 0, 0] := by
  have h1 : PRESSURE_TYPES.map (fun e => matchArrayLength "wrong" e.2)
      = [2, 0, 0, 2, 0, 0, 0] := by decide
  have h5 : PRESSURE_TYPES.map (fun e => matchArrayLength "wrong wrong wrong wrong wrong" e.2)
      = [2, 0, 0, 2, 0, 0, 0] := by decide
  have hs : ∀ text : String, PRESSURE_TYPES.map (fun e => subScore text e.2) =
      (PRESSURE_TYPES.map (fun e => matchArrayLength text e.2)).map
        (fun n : Nat => min ((n : ℚ) * 0.2) 1.0) := by
    intro text
    rw [List.map_map]
    rfl
  refine ⟨by decide, ?_, by decide, ?_⟩
  · rw [hs, h1]
    norm_num
  · rw [hs, h5]
    norm_num

/-- C7.  For every text, the score `scorePressure` returns is
`min(m + 0.1·q + 0.05·e, 1.0)`, with `m` the greatest category sub-score, `q` the
number of `?` characters and `e` the number of `!` characters of the text, and it
lies in `[0, 1]`. -/
theorem scorePressure_score_formula (text : String) :
    (scorePressure text).score =
        min (maxSubScore text + 0.1 * (text.data.count '?' : ℚ)
          + 0.05 * (text.data.count '!' : ℚ)) 1.0 ∧
      0 ≤ (scorePressure text).score ∧ (scorePressure text).score ≤ 1 := by
  have hq : (0 : ℚ) ≤ (text.data.count '?' : ℚ) := Nat.cast_nonneg _
  have he : (0 : ℚ) ≤ (text.data.count '!' : ℚ) := Nat.cast_nonneg _
  have hm := maxSubScore_nonneg text
  rw [scorePressure_score_eq, dominant_fst, questions_eq, emphasis_eq]
  refine ⟨by ring_nf, le_min ?_ (by norm_num), ?_⟩
  · have h1 : (0 : ℚ) ≤ (text.data.count '?' : ℚ) * 0.1 := by positivity
    have h2 : (0 : ℚ) ≤ (text.data.count '!' : ℚ) * 0.05 := by positivity
    linarith
  · exact le_trans (min_le_right _ _) (by norm_num)

/-- C8.  For every text, the type `scorePressure` returns is one of eight values,
each of which is returned for some text; it is "General pressure" exactly when
every category's sub-score is 0; otherwise it names the earliest category, in the
enumeration order of `PRESSURE_TYPES`, among those attaining the greatest
sub-score; and it is determined by the sub-scores alone, so the `?`/`!` boosts
never change it. -/
theorem scorePressure_type_spec (text : String) :
    (scorePressure text).type ∈
        ["General pressure", "Factual challenge", "Frame conflict", "Authority pressure",
          "Ethical dilemma", "Technical constraint", "Social pressure",
          "Performance demand"] ∧
      (∀ v ∈ ["General pressure", "Factual challenge", "Frame conflict",
          "Authority pressure", "Ethical dilemma", "Technical constraint",
          "Social pressure", "Performance demand"],
        ∃ text' : String, (scorePressure text').type = v) ∧
      PRESSURE_TYPES.map Prod.fst =
        ["Factual challenge", "Frame conflict", "Authority pressure", "Ethical dilemma",
          "Technical constraint", "Social pressure", "Performance demand"] ∧
      ((scorePressure text).type = "General pressure" ↔
        ∀ e ∈ PRESSURE_TYPES, subScore text e.2 = 0) ∧
      ((∃ e ∈ PRESSURE_TYPES, subScore text e.2 ≠ 0) →
        ∃ pre e post, PRESSURE_TYPES = pre ++ e :: post ∧
          (scorePressure text).type = e.1 ∧
          subScore text e.2 = maxSubScore text ∧
          (∀ e' ∈ PRESSURE_TYPES, subScore text e'.2 ≤ subScore text e.2) ∧
          ∀ e' ∈ pre, subScore text e'.2 < subScore text e.2) ∧
      ∀ text' : String, (∀ e ∈ PRESSURE_TYPES, subScore text' e.2 = subScore text e.2) →
        (scorePressure text').type = (scorePressure text).type := by
  have hne : ∀ e ∈ PRESSURE_TYPES, e.1 ≠ "General pressure" := by
    intro e he heq
    have hm := pressure_name_mem e he
    rw [heq] at hm
    revert hm
    decide
  refine ⟨?_, pressure_types_attained, rfl, ?_, ?_, ?_⟩
  · rw [scorePressure_type_eq]
    rcases dominant_cases text with ⟨h1, _⟩ | ⟨pre, e, post, h1, h2, _⟩
    · rw [h1]; simp
    · rw [h2]
      have he : e ∈ PRESSURE_TYPES := by rw [h1]; simp
      exact List.mem_cons_of_mem _ (pressure_name_mem e he)
  · rw [scorePressure_type_eq]
    rcases dominant_cases text with ⟨h1, h0⟩ | ⟨pre, e, post, h1, h2, h3, _⟩
    · rw [h1]
      exact ⟨fun _ => h0, fun _ => rfl⟩
    · have he : e ∈ PRESSURE_TYPES := by rw [h1]; simp
      rw [h2]
      constructor
      · intro heq
        exact absurd heq (hne e he)
      · intro h0
        exact absurd (h0 e he) (ne_of_gt h3)
  · rintro ⟨e0, he0, hnz⟩
    rw [scorePressure_type_eq]
    rcases dominant_cases text with ⟨_, h0⟩ | ⟨pre, e, post, h1, h2, h3, h4, h5⟩
    · exact absurd (h0 e0 he0) hnz
    · refine ⟨pre, e, post, h1, by rw [h2], ?_, ?_, h4⟩
      · rw [← dominant_fst, h2]
      · intro e' he'
        rw [h1] at he'
        rcases List.mem_append.mp he' with hp | hp
        · exact le_of_lt (h4 e' hp)
        · rcases List.mem_cons.mp hp with rfl | hp
          · exact le_refl _
          · exact h5 e' hp
  · intro text' h
    rw [scorePressure_type_eq, scorePressure_type_eq, dominant_congr text' text h]

/-- C9.  For two texts with the same keyword match result in every category, if
the second has at least as many `?` and at least as many `!` characters as the
first, then `scorePressure` gives the second a score at least that of the first,
and the same type. -/
theorem scorePressure_monotone (t1 t2 : String)
    (hk : ∀ e ∈ PRESSURE_TYPES, matchArrayLength t1 e.2 = matchArrayLength t2 e.2)
    (hq : t1.data.count '?' ≤ t2.data.count '?')
    (he : t1.data.count '!' ≤ t2.data.count '!') :
    (scorePressure t1).score ≤ (scorePressure t2).score ∧
      (scorePressure t1).type = (scorePressure t2).type := by
  have hd : dominant t1 = dominant t2 :=
    dominant_congr t1 t2 (fun e h => by simp only [subScore, hk e h])
  have hq' : (t1.data.count '?' : ℚ) ≤ (t2.data.count '?' : ℚ) := Nat.cast_le.mpr hq
  have he' : (t1.data.count '!' : ℚ) ≤ (t2.data.count '!' : ℚ) := Nat.cast_le.mpr he
  refine ⟨?_, by rw [scorePressure_type_eq, scorePressure_type_eq, hd]⟩
  rw [scorePressure_score_eq, scorePressure_score_eq, hd, questions_eq, questions_eq,
    emphasis_eq, emphasis_eq]
  apply min_le_min _ (le_refl _)
  have h1 : (t1.data.count '?' : ℚ) * 0.1 ≤ (t2.data.count '?' : ℚ) * 0.1 :=
    mul_le_mul_of_nonneg_right hq' (by norm_num)
  have h2 : (t1.data.count '!' : ℚ) * 0.05 ≤ (t2.data.count '!' : ℚ) * 0.05 :=
    mul_le_mul_of_nonneg_right he' (by norm_num)
  linarith

theorem scorePressure_monotone_witness :
    (∀ e ∈ PRESSURE_TYPES,
        matchArrayLength "Are you wrong?" e.2 = matchArrayLength "Are you wrong?!?" e.2) ∧
      "Are you wrong?".data.count '?' ≤ "Are you wrong?!?".data.count '?' ∧
      "Are you wrong?".data.count '!' ≤ "Are you wrong?!?".data.count '!' ∧
      (scorePressure "Are you wrong?").score ≤ (scorePressure "Are you wrong?!?").score ∧
      (scorePressure "Are you wrong?").type = (scorePressure "Are you wrong?!?").type :=
  ⟨by decide, by decide, by decide,
    scorePressure_monotone "Are you wrong?" "Are you wrong?!?" (by decide) (by decide)
      (by decide)⟩

/-! ## Axiom classifier -/

theorem axiomScore_foldl (text : String) (patterns : List Regex) (init : ℚ) :
    patterns.foldl (fun score pattern => if pattern.test text then score + 0.5 else score) init
      = init + 0.5 * ((patterns.filter (fun p => p.test text)).length : ℚ) := by
  induction patterns generalizing init with
  | nil => simp
  | cons p ps ih =>
    simp only [List.foldl_cons]
    rw [ih]
    by_cases h : p.test text = true
    · simp only [h, if_true, List.filter_cons_of_pos, List.length_cons]
      push_cast
      ring
    · simp only [h, if_false, List.filter_cons_of_neg, Bool.false_eq_true, not_false_eq_true]

/-- The score of an axiom is half the number of its patterns that match. -/
theorem axiomScore_eq (text : String) (patterns : List Regex) :
    axiomScore text patterns = 0.5 * ((patterns.filter (fun p => p.test text)).length : ℚ) := by
  unfold axiomScore
  rw [axiomScore_foldl, zero_add]

theorem axiomScore_nonneg (text : String) (patterns : List Regex) :
    0 ≤ axiomScore text patterns := by
  rw [axiomScore_eq]
  positivity

theorem axiomStep_eq (text : String) :
    axiomStep text =
      fun acc e =>
        if (fun e : Nat × String × List Regex => axiomScore text e.2.2) e > acc.1 then
          ((fun e : Nat × String × List Regex => axiomScore text e.2.2) e,
            (fun e : Nat × String × List Regex =>
              ({ number := e.1, name := e.2.1 } : AxiomResult)) e)
        else acc := rfl

theorem axiom_numbers : AXIOMS.map (fun e => e.1) = [1, 2, 3, 4, 5] := rfl

theorem axiom_pattern_counts : AXIOMS.map (fun e => e.2.2.length) = [2, 2, 2, 2, 2] := rfl

theorem axioms_ascending : AXIOMS.Pairwise (fun a b => a.1 < b.1) := by
  have h : (AXIOMS.map (fun e => e.1)).Pairwise (· < ·) := by
    rw [axiom_numbers]; decide
  exact (List.pairwise_map.mp h)

/-- The outcome of the selection loop of `detectAxiom`. -/
theorem detectAxiom_cases (text : String) :
    (detectAxiom text = { number := 1, name := "No Dissimulation" } ∧
        ∀ e ∈ AXIOMS, axiomScore text e.2.2 = 0) ∨
      ∃ pre e post, AXIOMS = pre ++ e :: post ∧
        detectAxiom text = { number := e.1, name := e.2.1 } ∧ 0 < axiomScore text e.2.2 ∧
        (∀ e' ∈ pre, axiomScore text e'.2.2 < axiomScore text e.2.2) ∧
        ∀ e' ∈ post, axiomScore text e'.2.2 ≤ axiomScore text e.2.2 := by
  unfold detectAxiom
  rw [axiomStep_eq]
  rcases foldl_select (fun e : Nat × String × List Regex => axiomScore text e.2.2)
      (fun e : Nat × String × List Regex => ({ number := e.1, name := e.2.1 } : AxiomResult))
      AXIOMS (0, { number := 1, name := "No Dissimulation" }) with ⟨h1, h2⟩ | h
  · left
    refine ⟨by rw [h1], fun e he => le_antisymm (h2 e he) (axiomScore_nonneg text e.2.2)⟩
  · right
    obtain ⟨pre, e, post, h1, h2, h3, h4, h5⟩ := h
    exact ⟨pre, e, post, h1, by rw [h2], h3, h4, h5⟩

/-- C10.  For every text, `detectAxiom` scores each axiom as `0.5 ×` the number of
its two patterns that match at least once, so each score is 0, 0.5 or 1.0; it
returns axiom 1 "No Dissimulation" when every axiom scores 0, and otherwise the
axiom with the smallest number among those attaining the greatest score; the
returned number is in 1..5 and the returned name is the one `AXIOMS` gives that
number. -/
theorem detectAxiom_spec (text : String) :
    (∀ e ∈ AXIOMS, e.2.2.length = 2 ∧
        axiomScore text e.2.2 = 0.5 * ((e.2.2.filter (fun p => p.test text)).length : ℚ) ∧
        (axiomScore text e.2.2 = 0 ∨ axiomScore text e.2.2 = 0.5 ∨
          axiomScore text e.2.2 = 1.0)) ∧
      ((∀ e ∈ AXIOMS, axiomScore text e.2.2 = 0) →
        detectAxiom text = { number := 1, name := "No Dissimulation" }) ∧
      ((∃ e ∈ AXIOMS, axiomScore text e.2.2 ≠ 0) →
        ∃ e ∈ AXIOMS, detectAxiom text = { number := e.1, name := e.2.1 } ∧
          (∀ e' ∈ AXIOMS, axiomScore text e'.2.2 ≤ axiomScore text e.2.2) ∧
          ∀ e' ∈ AXIOMS, axiomScore text e'.2.2 = axiomScore text e.2.2 → e.1 ≤ e'.1) ∧
      (1 ≤ (detectAxiom text).number ∧ (detectAxiom text).number ≤ 5) ∧
      ∃ e ∈ AXIOMS, e.1 = (detectAxiom text).number ∧ e.2.1 = (detectAxiom text).name := by
  have hlen : ∀ e ∈ AXIOMS, e.2.2.length = 2 := by
    intro e he
    have h : e.2.2.length ∈ AXIOMS.map (fun e => e.2.2.length) := List.mem_map_of_mem _ he
    rw [axiom_pattern_counts] at h
    simpa using h
  have hnum : ∀ e ∈ AXIOMS, 1 ≤ e.1 ∧ e.1 ≤ 5 := by
    intro e he
    have h : e.1 ∈ AXIOMS.map (fun e => e.1) := List.mem_map_of_mem _ he
    rw [axiom_numbers] at h
    simp only [List.mem_cons, List.mem_singleton, List.not_mem_nil, or_false] at h
    omega
  have hfirst : ((1 : Nat), "No Dissimulation", _) ∈ AXIOMS := List.mem_cons_self _ _
  refine ⟨?_, ?_, ?_, ?_, ?_⟩
  · intro e he
    refine ⟨hlen e he, axiomScore_eq text e.2.2, ?_⟩
    rw [axiomScore_eq]
    have hle : (e.2.2.filter (fun p => p.test text)).length ≤ 2 := by
      rw [← hlen e he]; exact List.length_filter_le _ _
    have : (e.2.2.filter (fun p => p.test text)).length = 0 ∨
        (e.2.2.filter (fun p => p.test text)).length = 1 ∨
        (e.2.2.filter (fun p => p.test text)).length = 2 := by omega
    rcases this with h | h | h <;> rw [h] <;> norm_num
  · intro h0
    rcases detectAxiom_cases text with ⟨h1, _⟩ | ⟨pre, e, post, h1, _, h3, _⟩
    · exact h1
    · have he : e ∈ AXIOMS := by rw [h1]; simp
      exact absurd (h0 e he) (ne_of_gt h3)
  · rintro ⟨e0, he0, hnz⟩
    rcases detectAxiom_cases text with ⟨_, h0⟩ | ⟨pre, e, post, h1, h2, h3, h4, h5⟩
    · exact absurd (h0 e0 he0) hnz
    · have he : e ∈ AXIOMS := by rw [h1]; simp
      have hasc := axioms_ascending
      rw [h1, List.pairwise_append] at hasc
      have hpost : ∀ b ∈ post, e.1 < b.1 := (List.pairwise_cons.mp hasc.2.1).1
      refine ⟨e, he, h2, ?_, ?_⟩
      · intro e' he'
        rw [h1] at he'
        rcases List.mem_append.mp he' with hp | hp
        · exact le_of_lt (h4 e' hp)
        · rcases List.mem_cons.mp hp with rfl | hp
          · exact le_refl _
          · exact h5 e' hp
      · intro e' he' heq
        rw [h1] at he'
        rcases List.mem_append.mp he' with hp | hp
        · exact absurd heq (ne_of_lt (h4 e' hp))
        · rcases List.mem_cons.mp hp with rfl | hp
          · exact le_refl _
          · exact le_of_lt (hpost e' hp)
  · rcases detectAxiom_cases text with ⟨h1, _⟩ | ⟨pre, e, post, h1, h2, _⟩
    · rw [h1]; exact ⟨le_refl _, by norm_num⟩
    · have he : e ∈ AXIOMS := by rw [h1]; simp
      rw [h2]; exact hnum e he
  · rcases detectAxiom_cases text with ⟨h1, _⟩ | ⟨pre, e, post, h1, h2, _⟩
    · exact ⟨_, hfirst, by rw [h1], by rw [h1]⟩
    · have he : e ∈ AXIOMS := by rw [h1]; simp
      exact ⟨e, he, by rw [h2], by rw [h2]⟩

/-! ## Manifold coordinates -/

theorem clamp_bounds (v : ℚ) : -1 ≤ clamp v (-1) 1 ∧ clamp v (-1) 1 ≤ 1 := by
  unfold clamp
  exact ⟨le_max_left _ _, max_le (by norm_num) (min_le_left _ _)⟩

theorem clamp_id (v : ℚ) (h1 : -1 ≤ v) (h2 : v ≤ 1) : clamp v (-1) 1 = v := by
  unfold clamp
  rw [min_eq_right h2, max_eq_right h1]

theorem ratio_den_pos (a b : Nat) : (0 : ℚ) < max ((a : ℚ) + (b : ℚ)) 1 :=
  lt_of_lt_of_le one_pos (le_max_right _ _)

theorem ratio_abs_le (a b : Nat) : |(a : ℚ) - (b : ℚ)| ≤ max ((a : ℚ) + (b : ℚ)) 1 := by
  have ha : (0 : ℚ) ≤ (a : ℚ) := Nat.cast_nonneg _
  have hb : (0 : ℚ) ≤ (b : ℚ) := Nat.cast_nonneg _
  refine le_trans ?_ (le_max_left _ _)
  rw [abs_le]
  constructor <;> linarith

theorem ratio_bounds (a b : Nat) : -1 ≤ ratio a b ∧ ratio a b ≤ 1 := by
  have hd := ratio_den_pos a b
  have h := abs_le.mp (ratio_abs_le a b)
  unfold ratio
  constructor
  · rw [le_div_iff₀ hd]; linarith [h.1]
  · rw [div_le_iff₀ hd]; linarith [h.2]

theorem backstage_eq (ax : AxiomResult) (pressure : Pressure) :
    backstage ax pressure =
      0 + (if pressure.type = "Frame conflict" then 0.3 else 0)
        + (if pressure.type = "Ethical dilemma" then 0.5 else 0)
        + (if ax.number = 1 then 0.2 else 0) := by
  unfold backstage
  by_cases h1 : pressure.type = "Frame conflict"
  · have h2 : pressure.type ≠ "Ethical dilemma" := by rw [h1]; decide
    by_cases h3 : ax.number = 1 <;> simp [h1, h3]
  · by_cases h2 : pressure.type = "Ethical dilemma" <;>
      by_cases h3 : ax.number = 1 <;> simp [h1, h2, h3]

theorem backstage_values (ax : AxiomResult) (pressure : Pressure) :
    backstage ax pressure ∈ ([0, 0.2, 0.3, 0.5, 0.7] : List ℚ) := by
  unfold backstage
  by_cases h1 : pressure.type = "Frame conflict"
  · have h2 : pressure.type ≠ "Ethical dilemma" := by rw [h1]; decide
    by_cases h3 : ax.number = 1 <;> (simp [h1, h3]; try norm_num)
  · by_cases h2 : pressure.type = "Ethical dilemma" <;>
      by_cases h3 : ax.number = 1 <;> (simp [h1, h2, h3]; try norm_num)

theorem backstage_bounds (ax : AxiomResult) (pressure : Pressure) :
    -1 ≤ backstage ax pressure ∧ backstage ax pressure ≤ 1 := by
  have h := backstage_values ax pressure
  simp only [List.mem_cons, List.mem_singleton, List.not_mem_nil, or_false] at h
  rcases h with h | h | h | h | h <;> rw [h] <;> constructor <;> norm_num

/-- C5.  For every text the coordinates `x`, `y`, `z` returned by
`calculateCoordinates` are exactly `(organic − technical) / max(organic + technical, 1)`,
`(mind − universe) / max(mind + universe, 1)` and `(give − take) / max(give + take, 1)`
over the match counts of the keyword families: the divisor is never zero, the value
is 0 when both families of an axis are absent, and the clamp to `[-1, 1]` leaves the
quotient unchanged because `|a − b| ≤ max(a + b, 1)`. -/
theorem calculateCoordinates_axes (text : String) (ax : AxiomResult) (pressure : Pressure) :
    (calculateCoordinates text ax pressure).x =
        ((matchArrayLength text orgPatterns : ℚ) - (matchArrayLength text techPatterns : ℚ)) /
          max ((matchArrayLength text orgPatterns : ℚ) + (matchArrayLength text techPatterns : ℚ)) 1 ∧
      (calculateCoordinates text ax pressure).y =
        ((matchArrayLength text mindPatterns : ℚ) - (matchArrayLength text uniPatterns : ℚ)) /
          max ((matchArrayLength text mindPatterns : ℚ) + (matchArrayLength text uniPatterns : ℚ)) 1 ∧
      (calculateCoordinates text ax pressure).z =
        ((matchArrayLength text givePatterns : ℚ) - (matchArrayLength text takePatterns : ℚ)) /
          max ((matchArrayLength text givePatterns : ℚ) + (matchArrayLength text takePatterns : ℚ)) 1 ∧
      (∀ a b : Nat, max ((a : ℚ) + (b : ℚ)) 1 ≠ 0 ∧
        |(a : ℚ) - (b : ℚ)| ≤ max ((a : ℚ) + (b : ℚ)) 1 ∧
        clamp (ratio a b) (-1) 1 = ratio a b) ∧
      (matchArrayLength text orgPatterns = 0 → matchArrayLength text techPatterns = 0 →
        (calculateCoordinates text ax pressure).x = 0) ∧
      (matchArrayLength text mindPatterns = 0 → matchArrayLength text uniPatterns = 0 →
        (calculateCoordinates text ax pressure).y = 0) ∧
      (matchArrayLength text givePatterns = 0 → matchArrayLength text takePatterns = 0 →
        (calculateCoordinates text ax pressure).z = 0) := by
  have hid : ∀ a b : Nat, clamp (ratio a b) (-1) 1 = ratio a b :=
    fun a b => clamp_id _ (ratio_bounds a b).1 (ratio_bounds a b).2
  have hx : (calculateCoordinates text ax pressure).x =
      ratio (matchArrayLength text orgPatterns) (matchArrayLength text techPatterns) :=
    hid _ _
  have hy : (calculateCoordinates text ax pressure).y =
      ratio (matchArrayLength text mindPatterns) (matchArrayLength text uniPatterns) :=
    hid _ _
  have hz : (calculateCoordinates text ax pressure).z =
      ratio (matchArrayLength text givePatterns) (matchArrayLength text takePatterns) :=
    hid _ _
  have h00 : ratio 0 0 = 0 := by simp [ratio]
  refine ⟨hx, hy, hz, ?_, ?_, ?_, ?_⟩
  · exact fun a b => ⟨ne_of_gt (ratio_den_pos a b), ratio_abs_le a b, hid a b⟩
  · intro h1 h2; rw [hx, h1, h2, h00]
  · intro h1 h2; rw [hy, h1, h2, h00]
  · intro h1 h2; rw [hz, h1, h2, h00]

/-- C6.  For every pressure result and axiom result, the coordinate `t` returned by
`calculateCoordinates` is `0`, plus `0.3` if the pressure type is "Frame conflict",
plus `0.5` if it is "Ethical dilemma", plus `0.2` if the axiom number is 1; it does
not depend on the text, and it is one of `0`, `0.2`, `0.3`, `0.5`, `0.7`. -/
theorem calculateCoordinates_t (text : String) (ax : AxiomResult) (pressure : Pressure) :
    (calculateCoordinates text ax pressure).t =
        0 + (if pressure.type = "Frame conflict" then 0.3 else 0)
          + (if pressure.type = "Ethical dilemma" then 0.5 else 0)
          + (if ax.number = 1 then 0.2 else 0) ∧
      (∀ text' : String, (calculateCoordinates text' ax pressure).t =
        (calculateCoordinates text ax pressure).t) ∧
      (calculateCoordinates text ax pressure).t ∈ ([0, 0.2, 0.3, 0.5, 0.7] : List ℚ) := by
  have ht : ∀ s : String, (calculateCoordinates s ax pressure).t = backstage ax pressure :=
    fun _ => clamp_id _ (backstage_bounds ax pressure).1 (backstage_bounds ax pressure).2
  refine ⟨?_, ?_, ?_⟩
  · rw [ht, backstage_eq]
  · intro text'; rw [ht, ht]
  · rw [ht]; exact backstage_values ax pressure

/-! ## Extraction engine: lemmas -/

theorem pairAt_of_get (conv : Conversation) (i : Nat) (userMsg aiMsg : Turn)
    (hu : conv.messages[i]? = some userMsg)
    (ha : conv.messages[i + 1]? = some aiMsg) :
    pairAt conv i =
      if isUserRole userMsg.role = true ∧ isUserRole aiMsg.role = false ∧
          0.3 ≤ (scorePressure userMsg.content).score
      then some (anecdoteOf conv i userMsg aiMsg) else none := by
  unfold pairAt
  rw [hu, ha]
  by_cases h1 : isUserRole userMsg.role = true <;>
    by_cases h2 : isUserRole aiMsg.role = true <;>
    by_cases h3 : (scorePressure userMsg.content).score < 0.3 <;>
    simp [h1, h2, h3, not_le.mpr, not_lt.mp]

theorem pairAt_eq_some (conv : Conversation) (i : Nat) (a : Anecdote)
    (h : pairAt conv i = some a) :
    ∃ userMsg aiMsg, conv.messages[i]? = some userMsg ∧
      conv.messages[i + 1]? = some aiMsg ∧
      isUserRole userMsg.role = true ∧ isUserRole aiMsg.role = false ∧
      0.3 ≤ (scorePressure userMsg.content).score ∧
      a = anecdoteOf conv i userMsg aiMsg := by
  cases hu : conv.messages[i]? with
  | none => unfold pairAt at h; rw [hu] at h; simp at h
  | some userMsg =>
    cases ha : conv.messages[i + 1]? with
    | none => unfold pairAt at h; rw [hu, ha] at h; simp at h
    | some aiMsg =>
      rw [pairAt_of_get conv i userMsg aiMsg hu ha] at h
      split_ifs at h with hc
      exact ⟨userMsg, aiMsg, rfl, rfl, hc.1, hc.2.1, hc.2.2, (Option.some.inj h).symm⟩

theorem pairAt_source_turn (conv : Conversation) (i : Nat) (a : Anecdote)
    (h : pairAt conv i = some a) : a.source_turn = i := by
  obtain ⟨u, ai, _, _, _, _, _, rfl⟩ := pairAt_eq_some conv i a h
  rfl

/-- Among the results of a loop over `0 .. n-1` whose result at index `j` carries the
key `j`, exactly one has key `i` when the loop produces a result at `i`, and none
otherwise. -/
theorem filterMap_range_key {α : Type} (f : Nat → Option α) (key : α → Nat)
    (hkey : ∀ j a, f j = some a → key a = j) (n i : Nat) :
    (((List.range n).filterMap f).filter (fun a => key a = i)).length =
      if i < n ∧ (f i).isSome = true then 1 else 0 := by
  induction n with
  | zero => simp
  | succ n ih =>
    rw [List.range_succ, List.filterMap_append, List.filter_append, List.length_append, ih]
    cases hf : f n with
    | none =>
      by_cases hi : i < n
      · have : i < n + 1 := by omega
        simp [hf, hi, this]
      · by_cases hin : i = n
        · subst hin; simp [hf]
        · have : ¬ i < n + 1 := by omega
          simp [hf, hi, this]
    | some a =>
      have hk := hkey n a hf
      by_cases hi : i < n
      · have h1 : i < n + 1 := by omega
        have h2 : ¬ key a = i := by omega
        simp [hf, hi, h1, h2]
      · by_cases hin : i = n
        · subst hin
          simp [hf, hk]
        · have h1 : ¬ i < n + 1 := by omega
          have h2 : ¬ key a = i := by omega
          simp [hf, hi, h1, h2]

theorem pairingPass_count (conv : Conversation) (i : Nat) :
    ((pairingPass conv).filter (fun a => a.source_turn = i)).length =
      if i < conv.messages.length - 1 ∧ (pairAt conv i).isSome = true then 1 else 0 :=
  filterMap_range_key (pairAt conv) (fun a => a.source_turn) (pairAt_source_turn conv) _ i

theorem mem_pairingPass (conv : Conversation) (a : Anecdote) (h : a ∈ pairingPass conv) :
    ∃ i, pairAt conv i = some a := by
  unfold pairingPass at h
  obtain ⟨i, _, hi⟩ := List.mem_filterMap.mp h
  exact ⟨i, hi⟩

theorem extractAnecdotes_perm (conversations : List Conversation) :
    (extractAnecdotes conversations).Perm (conversations.flatMap pairingPass) :=
  List.perm_insertionSort _ _

theorem mem_extractAnecdotes (conversations : List Conversation) (a : Anecdote)
    (h : a ∈ extractAnecdotes conversations) :
    ∃ conv ∈ conversations, ∃ i, pairAt conv i = some a := by
  have h' := (extractAnecdotes_perm conversations).mem_iff.mp h
  obtain ⟨conv, hc, ha⟩ := List.mem_flatMap.mp h'
  exact ⟨conv, hc, mem_pairingPass conv a ha⟩

theorem extractAnecdotes_count (conversations : List Conversation) (p : Anecdote → Bool) :
    ((extractAnecdotes conversations).filter p).length =
      ((conversations.flatMap pairingPass).filter p).length :=
  ((extractAnecdotes_perm conversations).filter p).length_eq

/-- Evaluation of the score from the per-category array lengths and the two
character counts. -/
theorem score_of_lengths (text : String) (ns : List Nat) (q e : Nat)
    (h : PRESSURE_TYPES.map (fun e => matchArrayLength text e.2) = ns)
    (hq : text.data.count '?' = q) (he : text.data.count '!' = e) :
    (scorePressure text).score =
      min ((ns.map (fun n : Nat => min ((n : ℚ) * 0.2) 1.0)).foldr max 0
        + (q : ℚ) * 0.1 + (e : ℚ) * 0.05) 1.0 := by
  rw [scorePressure_score_eq, dominant_fst, questions_eq, emphasis_eq, hq, he, ← h,
    List.map_map]
  rfl

theorem manifold_bounds (text : String) (ax : AxiomResult) (pressure : Pressure) :
    (-1 ≤ (calculateCoordinates text ax pressure).x ∧
        (calculateCoordinates text ax pressure).x ≤ 1) ∧
      (-1 ≤ (calculateCoordinates text ax pressure).y ∧
        (calculateCoordinates text ax pressure).y ≤ 1) ∧
      (-1 ≤ (calculateCoordinates text ax pressure).z ∧
        (calculateCoordinates text ax pressure).z ≤ 1) ∧
      (-1 ≤ (calculateCoordinates text ax pressure).t ∧
        (calculateCoordinates text ax pressure).t ≤ 1) :=
  ⟨clamp_bounds _, clamp_bounds _, clamp_bounds _, clamp_bounds _⟩

theorem isUserRole_user : isUserRole (some "user") = true := by decide

theorem isUserRole_assistant : isUserRole (some "assistant") = false := by decide

theorem pairingPass_threeTurns (id title source c0 c1 c2 : String) :
    pairingPass (threeTurns id title source c0 c1 c2) =
      if (scorePressure c1).score < 0.3 then []
      else [anecdoteOf (threeTurns id title source c0 c1 c2) 1
        ⟨some "user", c1⟩ ⟨some "assistant", c2⟩] := by
  have h0 : pairAt (threeTurns id title source c0 c1 c2) 0 = none := by
    rw [pairAt_of_get (threeTurns id title source c0 c1 c2) 0 ⟨some "user", c0⟩ ⟨some "user", c1⟩ rfl rfl]
    simp [isUserRole_user]
  have h1 : pairAt (threeTurns id title source c0 c1 c2) 1 =
      if (scorePressure c1).score < 0.3 then none
      else some (anecdoteOf (threeTurns id title source c0 c1 c2) 1
        ⟨some "user", c1⟩ ⟨some "assistant", c2⟩) := by
    rw [pairAt_of_get (threeTurns id title source c0 c1 c2) 1 ⟨some "user", c1⟩ ⟨some "assistant", c2⟩ rfl rfl]
    by_cases h : (scorePressure c1).score < 0.3
    · simp [h, not_le.mpr h]
    · simp [h, isUserRole_user, isUserRole_assistant, not_lt.mp h]
  have hr : List.range ((threeTurns id title source c0 c1 c2).messages.length - 1) = [0, 1] :=
    rfl
  unfold pairingPass
  rw [hr]
  by_cases h : (scorePressure c1).score < 0.3
  · simp [List.filterMap_cons, h0, h1, h]
  · simp [List.filterMap_cons, h0, h1, h]

theorem extractAnecdotes_threeTurns (id title source c0 c1 c2 : String) :
    extractAnecdotes [threeTurns id title source c0 c1 c2] =
      if (scorePressure c1).score < 0.3 then []
      else [anecdoteOf (threeTurns id title source c0 c1 c2) 1
        ⟨some "user", c1⟩ ⟨some "assistant", c2⟩] := by
  unfold extractAnecdotes
  rw [List.flatMap_singleton, pairingPass_threeTurns]
  by_cases h : (scorePressure c1).score < 0.3 <;> simp [h]

theorem score_three_questions : (scorePressure "???").score = 0.3 := by
  rw [score_of_lengths "???" [0, 0, 0, 0, 0, 0, 0] 3 0 (by decide) (by decide) (by decide)]
  norm_num

theorem score_you_are_wrong : (scorePressure "You are wrong").score = 0.4 := by
  rw [score_of_lengths "You are wrong" [2, 0, 0, 2, 0, 0, 0] 0 0 (by decide) (by decide)
    (by decide)]
  norm_num

/-! ## Extraction engine: claims -/

/-- C2.  For every conversation (wherever it stands in the input) and every index
`i` with both `messages[i]` and `messages[i+1]` present, the conversation
contributes exactly one anecdote for the pair `(i, i+1)` to the result of
`extractAnecdotes` if `messages[i]` is user-like, `messages[i+1]` is not user-like
and the pressure score of `messages[i].content` is at least `0.3`, and no anecdote
for that pair otherwise; the threshold is inclusive. -/
theorem extractAnecdotes_admission (before after : List Conversation) (conv : Conversation)
    (i : Nat) (userMsg aiMsg : Turn)
    (hu : conv.messages[i]? = some userMsg) (ha : conv.messages[i + 1]? = some aiMsg) :
    ((extractAnecdotes (before ++ conv :: after)).filter (fun a => a.source_turn = i)).length =
      ((extractAnecdotes (before ++ after)).filter (fun a => a.source_turn = i)).length +
        if isUserRole userMsg.role = true ∧ isUserRole aiMsg.role = false ∧
            0.3 ≤ (scorePressure userMsg.content).score
        then 1 else 0 := by
  have hlen : i < conv.messages.length - 1 := by
    have := (List.getElem?_eq_some.mp ha).1
    omega
  rw [extractAnecdotes_count, extractAnecdotes_count, List.flatMap_append, List.flatMap_cons,
    List.flatMap_append, List.filter_append, List.filter_append, List.filter_append,
    List.length_append, List.length_append, List.length_append, pairingPass_count,
    pairAt_of_get conv i userMsg aiMsg hu ha]
  by_cases hc : isUserRole userMsg.role = true ∧ isUserRole aiMsg.role = false ∧
      0.3 ≤ (scorePressure userMsg.content).score
  · simp only [if_pos hc, hlen, Option.isSome_some, and_self, if_true]
    omega
  · simp only [if_neg hc, Option.isSome_none, Bool.false_eq_true, and_false, if_false]
    omega

theorem extractAnecdotes_admission_witness :
    (threeTurns "c" "t" "f" "hello" "???" "ok").messages[1]? = some ⟨some "user", "???"⟩ ∧
      (threeTurns "c" "t" "f" "hello" "???" "ok").messages[1 + 1]?
        = some ⟨some "assistant", "ok"⟩ ∧
      (scorePressure "???").score = 0.3 ∧
      ((extractAnecdotes ([] ++ threeTurns "c" "t" "f" "hello" "???" "ok" :: [])).filter
          (fun a => a.source_turn = 1)).length =
        ((extractAnecdotes ([] ++ [])).filter (fun a => a.source_turn = 1)).length + 1 := by
  refine ⟨rfl, rfl, score_three_questions, ?_⟩
  rw [extractAnecdotes_admission [] [] (threeTurns "c" "t" "f" "hello" "???" "ok") 1
    ⟨some "user", "???"⟩ ⟨some "assistant", "ok"⟩ rfl rfl,
    if_pos ⟨isUserRole_user, isUserRole_assistant, le_of_eq score_three_questions.symm⟩]

/-- C3 (counterexample).  The conversation with the turns user "hello", user
"You are wrong", assistant "ok" yields one anecdote, not zero: the pair `(1, 2)` is
a user turn followed by an assistant turn and its pressure score is `0.4`. -/
theorem user_user_assistant_admitted :
    (scorePressure "You are wrong").score = 0.4 ∧
      (extractAnecdotes [threeTurns "c" "t" "f" "hello" "You are wrong" "ok"]).length = 1 := by
  refine ⟨score_you_are_wrong, ?_⟩
  rw [extractAnecdotes_threeTurns, score_you_are_wrong, if_neg (by norm_num)]
  rfl

/-- C3 (amended).  For every conversation whose messages are exactly three turns
with the roles user, user, assistant, whatever their contents, `extractAnecdotes`
emits no anecdote for the pair `(0, 1)`; it produces zero anecdotes when the
pressure score of the second turn's content is below `0.3`, and otherwise exactly
one anecdote, the one for the pair `(1, 2)`. -/
theorem user_user_assistant_pairs (id title source c0 c1 c2 : String) :
    (∀ a ∈ extractAnecdotes [threeTurns id title source c0 c1 c2], a.source_turn ≠ 0) ∧
      extractAnecdotes [threeTurns id title source c0 c1 c2] =
        if (scorePressure c1).score < 0.3 then []
        else [anecdoteOf (threeTurns id title source c0 c1 c2) 1
          ⟨some "user", c1⟩ ⟨some "assistant", c2⟩] := by
  refine ⟨?_, extractAnecdotes_threeTurns id title source c0 c1 c2⟩
  rw [extractAnecdotes_threeTurns]
  intro a ha
  by_cases h : (scorePressure c1).score < 0.3
  · simp [h] at ha
  · simp only [if_neg h, List.mem_singleton] at ha
    rw [ha]
    exact Nat.one_ne_zero

/-- C4.  For every combined text, axiom result and pressure result, each of the
four coordinates returned by `calculateCoordinates` lies in `[-1, 1]`; hence every
anecdote returned by `extractAnecdotes` has its four manifold coordinates in
`[-1, 1]`. -/
theorem manifold_in_range (text : String) (ax : AxiomResult) (pressure : Pressure) :
    ((-1 ≤ (calculateCoordinates text ax pressure).x ∧
        (calculateCoordinates text ax pressure).x ≤ 1) ∧
      (-1 ≤ (calculateCoordinates text ax pressure).y ∧
        (calculateCoordinates text ax pressure).y ≤ 1) ∧
      (-1 ≤ (calculateCoordinates text ax pressure).z ∧
        (calculateCoordinates text ax pressure).z ≤ 1) ∧
      (-1 ≤ (calculateCoordinates text ax pressure).t ∧
        (calculateCoordinates text ax pressure).t ≤ 1)) ∧
      ∀ (conversations : List Conversation), ∀ a ∈ extractAnecdotes conversations,
        (-1 ≤ a.manifold.x ∧ a.manifold.x ≤ 1) ∧ (-1 ≤ a.manifold.y ∧ a.manifold.y ≤ 1) ∧
        (-1 ≤ a.manifold.z ∧ a.manifold.z ≤ 1) ∧ (-1 ≤ a.manifold.t ∧ a.manifold.t ≤ 1) := by
  refine ⟨manifold_bounds text ax pressure, ?_⟩
  intro conversations a ha
  obtain ⟨conv, _, i, hi⟩ := mem_extractAnecdotes conversations a ha
  obtain ⟨u, ai, _, _, _, _, _, rfl⟩ := pairAt_eq_some conv i a hi
  exact manifold_bounds _ _ _

/-! ## Domain classifier and outcome detector: claims -/

theorem domain_names :
    DOMAINS.map Prod.fst =
      ["technical", "philosophical", "political", "psychological", "ethical", "sovereignty",
        "epistemological"] := rfl

theorem firstDomain_none (text : String) (l : List (String × Regex))
    (h : ∀ e ∈ l, e.2.test text = false) : firstDomain text l = "philosophical" := by
  induction l with
  | nil => rfl
  | cons e t ih =>
    obtain ⟨d, p⟩ := e
    have hp : p.test text = false := h (d, p) (List.mem_cons_self _ _)
    simp only [firstDomain, hp, Bool.false_eq_true, if_false]
    exact ih (fun e he => h e (List.mem_cons_of_mem _ he))

theorem firstDomain_first (text : String) (pre post : List (String × Regex))
    (e : String × Regex) (he : e.2.test text = true)
    (hpre : ∀ e' ∈ pre, e'.2.test text = false) :
    firstDomain text (pre ++ e :: post) = e.1 := by
  induction pre with
  | nil =>
    obtain ⟨d, p⟩ := e
    simp only [List.nil_append, firstDomain]
    rw [if_pos he]
  | cons a t ih =>
    obtain ⟨d, p⟩ := a
    have hp : p.test text = false := hpre (d, p) (List.mem_cons_self _ _)
    simp only [List.cons_append, firstDomain, hp, Bool.false_eq_true, if_false]
    exact ih (fun e' he' => hpre e' (List.mem_cons_of_mem _ he'))

theorem firstDomain_mem (text : String) (l : List (String × Regex)) :
    firstDomain text l = "philosophical" ∨ firstDomain text l ∈ l.map Prod.fst := by
  induction l with
  | nil => left; rfl
  | cons e t ih =>
    obtain ⟨d, p⟩ := e
    by_cases hp : p.test text = true
    · right
      simp only [firstDomain, hp, if_true, List.map_cons]
      exact List.mem_cons_self _ _
    · simp only [firstDomain, hp, if_false, List.map_cons]
      rcases ih with h | h
      · left; exact h
      · right; exact List.mem_cons_of_mem _ h

/-- C11.  For every text, `detectDomain` returns the first domain, in the
enumeration order technical, philosophical, political, psychological, ethical,
sovereignty, epistemological, whose pattern matches the text, whatever later
domains match; it returns "philosophical" when no pattern matches; and the result
is always one of the seven domain tags. -/
theorem detectDomain_first_match (text : String) :
    DOMAINS.map Prod.fst =
        ["technical", "philosophical", "political", "psychological", "ethical",
          "sovereignty", "epistemological"] ∧
      (∀ pre e post, DOMAINS = pre ++ e :: post → e.2.test text = true →
        (∀ e' ∈ pre, e'.2.test text = false) → detectDomain text = e.1) ∧
      ((∀ e ∈ DOMAINS, e.2.test text = false) → detectDomain text = "philosophical") ∧
      detectDomain text ∈
        ["technical", "philosophical", "political", "psychological", "ethical",
          "sovereignty", "epistemological"] := by
  refine ⟨rfl, ?_, ?_, ?_⟩
  · intro pre e post hd he hpre
    unfold detectDomain
    rw [hd]
    exact firstDomain_first text pre post e he hpre
  · intro h
    exact firstDomain_none text DOMAINS h
  · rcases firstDomain_mem text DOMAINS with h | h
    · unfold detectDomain
      rw [h]
      decide
    · rw [domain_names] at h
      exact h

/-- C12.  For every assistant text, `detectOutcome` returns "Partial validation"
exactly when at least one of the two hedging patterns matches the text, and
"Clean articulation" otherwise; it returns no other value. -/
theorem detectOutcome_spec (aiText : String) :
    compromiseMarkers.length = 2 ∧
      (detectOutcome aiText = "Partial validation" ↔
        ∃ p ∈ compromiseMarkers, p.test aiText = true) ∧
      (detectOutcome aiText = "Clean articulation" ↔
        ∀ p ∈ compromiseMarkers, p.test aiText = false) ∧
      (detectOutcome aiText = "Partial validation" ∨
        detectOutcome aiText = "Clean articulation") := by
  have hne : ("Clean articulation" : String) ≠ "Partial validation" := by decide
  by_cases h : compromiseMarkers.any (fun pattern => pattern.test aiText) = true
  · have hv : detectOutcome aiText = "Partial validation" := by
      unfold detectOutcome; rw [if_pos h]
    have hex : ∃ p ∈ compromiseMarkers, p.test aiText = true := by
      simpa [List.any_eq_true] using h
    refine ⟨rfl, ⟨fun _ => hex, fun _ => hv⟩, ?_, Or.inl hv⟩
    rw [hv]
    constructor
    · intro hc; exact absurd hc.symm hne
    · intro hall
      obtain ⟨p, hp, ht⟩ := hex
      rw [hall p hp] at ht
      exact absurd ht (by decide)
  · have hv : detectOutcome aiText = "Clean articulation" := by
      unfold detectOutcome; rw [if_neg h]
    have hall : ∀ p ∈ compromiseMarkers, p.test aiText = false := by
      intro p hp
      by_contra hc
      exact h (List.any_eq_true.mpr ⟨p, hp, by simpa using hc⟩)
    refine ⟨rfl, ?_, ⟨fun _ => hall, fun _ => hv⟩, Or.inr hv⟩
    rw [hv]
    constructor
    · intro hc; exact absurd hc hne
    · rintro ⟨p, hp, ht⟩
      rw [hall p hp] at ht
      exact absurd ht (by decide)

/-! ## Sorting, truncation, roles and provenance: claims -/

/-- C14.  For every list of conversations, the list `extractAnecdotes` returns is
ordered by non-increasing `manifold.z` and is a permutation of the anecdotes
admitted during the pairing pass: sorting adds, drops and alters no record. -/
theorem extractAnecdotes_sorted_perm (conversations : List Conversation) :
    (extractAnecdotes conversations).Pairwise (fun a b => b.manifold.z ≤ a.manifold.z) ∧
      (extractAnecdotes conversations).Perm (conversations.flatMap pairingPass) := by
  haveI : IsTotal Anecdote zDescending := ⟨fun a b => le_total b.manifold.z a.manifold.z⟩
  haveI : IsTrans Anecdote zDescending :=
    ⟨fun a b c (hab : b.manifold.z ≤ a.manifold.z) (hbc : c.manifold.z ≤ b.manifold.z) =>
      le_trans hbc hab⟩
  exact ⟨List.sorted_insertionSort zDescending _, extractAnecdotes_perm conversations⟩

theorem truncate_short (text : String) (n : Nat) (h : (toUTF16 text).length ≤ n) :
    truncate text n = toUTF16 text := by
  unfold truncate
  rw [if_pos h]

theorem truncate_long (text : String) (n : Nat) (h : n < (toUTF16 text).length) :
    truncate text n = (toUTF16 text).take (n - 3) ++ toUTF16 "..." := by
  unfold truncate
  rw [if_neg (not_le.mpr h)]

theorem ellipsis_units : toUTF16 "..." = [46, 46, 46] := by decide

theorem truncate_long_length (text : String) (n : Nat) (hn : 3 ≤ n)
    (h : n < (toUTF16 text).length) : (truncate text n).length = n := by
  rw [truncate_long text n h, ellipsis_units, List.length_append, List.length_take]
  simp only [List.length_cons, List.length_nil]
  omega

theorem truncate_length_le (text : String) (n : Nat) (hn : 3 ≤ n) :
    (truncate text n).length ≤ n := by
  by_cases h : (toUTF16 text).length ≤ n
  · rw [truncate_short text n h]; exact h
  · exact le_of_eq (truncate_long_length text n hn (not_le.mp h))

set_option maxRecDepth 8000 in
/-- A text of one letter and a hundred characters outside the Basic Multilingual
Plane has 201 code units, so `truncate(text, 200)` cuts it to 200. -/
theorem truncate_astral :
    (toUTF16 ⟨'a' :: List.replicate 100 (Char.ofNat 0x1F600)⟩).length = 201 ∧
      (truncate ⟨'a' :: List.replicate 100 (Char.ofNat 0x1F600)⟩ 200).length = 200 := by
  have h : (toUTF16 ⟨'a' :: List.replicate 100 (Char.ofNat 0x1F600)⟩).length = 201 := by
    decide
  exact ⟨h, truncate_long_length _ 200 (by decide) (by rw [h]; decide)⟩

/-- C15.  `truncate(text, n)` with `n ≥ 3` returns the text unchanged when its
length is at most `n`, and otherwise exactly `n` characters: the first `n − 3`
characters of the text followed by `...`.  Hence for every anecdote `context` has
at most 200 characters and `clean_outcome` at most 500.  Characters are counted as
JavaScript counts them, in UTF-16 code units. -/
theorem truncate_spec (text : String) (n : Nat) (hn : 3 ≤ n) :
    ((toUTF16 text).length ≤ n → truncate text n = toUTF16 text) ∧
      (n < (toUTF16 text).length →
        (truncate text n).length = n ∧
          truncate text n = (toUTF16 text).take (n - 3) ++ [46, 46, 46] ∧
          ((toUTF16 text).take (n - 3)).length = n - 3) ∧
      toUTF16 "..." = [46, 46, 46] ∧
      ∀ (conversations : List Conversation), ∀ a ∈ extractAnecdotes conversations,
        a.context.length ≤ 200 ∧ a.clean_outcome.length ≤ 500 := by
  refine ⟨truncate_short text n, ?_, ellipsis_units, ?_⟩
  · intro h
    refine ⟨truncate_long_length text n hn h, ?_, ?_⟩
    · rw [truncate_long text n h, ellipsis_units]
    · rw [List.length_take]
      omega
  · intro conversations a ha
    obtain ⟨conv, _, i, hi⟩ := mem_extractAnecdotes conversations a ha
    obtain ⟨u, ai, _, _, _, _, _, rfl⟩ := pairAt_eq_some conv i a hi
    exact ⟨truncate_length_le u.content 200 (by norm_num),
      truncate_length_le ai.content 500 (by norm_num)⟩

theorem truncate_spec_witness :
    3 ≤ 5 ∧
      toUTF16 ⟨['a', Char.ofNat 0x1F600, Char.ofNat 0x1F600, Char.ofNat 0x1F600]⟩ =
        [97, 0xD83D, 0xDE00, 0xD83D, 0xDE00, 0xD83D, 0xDE00] ∧
      truncate ⟨['a', Char.ofNat 0x1F600, Char.ofNat 0x1F600, Char.ofNat 0x1F600]⟩ 5 =
        [97, 0xD83D, 46, 46, 46] ∧
      truncate "abcde" 5 = [97, 98, 99, 100, 101] ∧
      (5 < (toUTF16
            ⟨['a', Char.ofNat 0x1F600, Char.ofNat 0x1F600, Char.ofNat 0x1F600]⟩).length →
        (truncate ⟨['a', Char.ofNat 0x1F600, Char.ofNat 0x1F600, Char.ofNat 0x1F600]⟩
            5).length = 5 ∧
          truncate ⟨['a', Char.ofNat 0x1F600, Char.ofNat 0x1F600, Char.ofNat 0x1F600]⟩ 5 =
            (toUTF16
              ⟨['a', Char.ofNat 0x1F600, Char.ofNat 0x1F600, Char.ofNat 0x1F600]⟩).take
                (5 - 3) ++ [46, 46, 46] ∧
          ((toUTF16
              ⟨['a', Char.ofNat 0x1F600, Char.ofNat 0x1F600, Char.ofNat 0x1F600]⟩).take
                (5 - 3)).length = 5 - 3) :=
  ⟨by decide, by decide, by decide, by decide,
    (truncate_spec ⟨['a', Char.ofNat 0x1F600, Char.ofNat 0x1F600, Char.ofNat 0x1F600]⟩ 5
      (by decide)).2.1⟩

/-- C16.  For every role value, `isUserRole` returns true exactly when the role,
lower-cased, is one of "user", "human", "me", "unknown"; a missing role and an
empty role are not user-like, and every role is classified one way or the other. -/
theorem isUserRole_spec (role : Option String) :
    (isUserRole role = true ↔
        toLowerCase (role.getD "") ∈ ["user", "human", "me", "unknown"]) ∧
      (isUserRole role = false ↔
        toLowerCase (role.getD "") ∉ ["user", "human", "me", "unknown"]) ∧
      isUserRole none = false ∧ isUserRole (some "") = false ∧
      isUserRole (some "USER") = true ∧ isUserRole (some "Human") = true ∧
      isUserRole (some "me") = true ∧ isUserRole (some "Unknown") = true ∧
      isUserRole (some "assistant") = false ∧ isUserRole (some "system") = false := by
  have h1 : isUserRole role = true ↔
      toLowerCase (role.getD "") ∈ ["user", "human", "me", "unknown"] := by
    unfold isUserRole
    simp
  refine ⟨h1, ?_, by decide, by decide, by decide, by decide, by decide, by decide,
    by decide, by decide⟩
  rw [← h1]
  simp

/-- C17.  Every anecdote returned by `extractAnecdotes` comes from a conversation
`c` of the input with `source_conversation = c.id` and `source_file = c.source`;
`source_turn` is an index `i` with `i` and `i + 1` both valid in `c.messages`;
`c.messages[i]` is user-like, its content is the anecdote's `pressure` and
`context` is that content truncated to 200; `c.messages[i+1]` is not user-like and
`clean_outcome` is its content truncated to 500. -/
theorem anecdote_provenance (conversations : List Conversation) :
    ∀ a ∈ extractAnecdotes conversations, ∃ c ∈ conversations,
      a.source_conversation = c.id ∧ a.source_file = c.source ∧
      a.source_turn + 1 < c.messages.length ∧
      ∃ userMsg aiMsg, c.messages[a.source_turn]? = some userMsg ∧
        c.messages[a.source_turn + 1]? = some aiMsg ∧
        isUserRole userMsg.role = true ∧ userMsg.content = a.pressure ∧
        a.context = truncate userMsg.content 200 ∧
        isUserRole aiMsg.role = false ∧ a.clean_outcome = truncate aiMsg.content 500 := by
  intro a ha
  obtain ⟨conv, hc, i, hi⟩ := mem_extractAnecdotes conversations a ha
  obtain ⟨u, ai, hu, hai, h1, h2, _, rfl⟩ := pairAt_eq_some conv i a hi
  refine ⟨conv, hc, rfl, rfl, ?_, u, ai, hu, hai, h1, rfl, rfl, h2, rfl⟩
  exact (List.getElem?_eq_some.mp hai).1

/-! ## Bounds on the number of anecdotes -/

/-- A loop over `0 .. n-1` that never produces a result at two consecutive indices
produces at most `⌈n / 2⌉` results. -/
theorem filterMap_range_sparse {α : Type} (f : Nat → Option α)
    (h : ∀ i, (f i).isSome = true → f (i + 1) = none) (n : Nat) :
    ((List.range n).filterMap f).length ≤ (n + 1) / 2 := by
  induction n using Nat.strong_induction_on with
  | _ n ih =>
    match n with
    | 0 => simp
    | 1 =>
      rw [List.range_succ, List.filterMap_append, List.length_append]
      cases hf : f 0 <;> simp [hf]
    | n + 2 =>
      have hn := ih n (by omega)
      have hr : List.range (n + 2) = List.range n ++ [n, n + 1] := by
        rw [List.range_succ, List.range_succ, List.append_assoc]
        rfl
      have h2 : ([n, n + 1].filterMap f).length ≤ 1 := by
        cases hf : f n with
        | none =>
          cases hf' : f (n + 1) <;> simp [List.filterMap_cons, hf, hf']
        | some a =>
          have hnext := h n (by rw [hf]; rfl)
          simp [List.filterMap_cons, hf, hnext]
      rw [hr, List.filterMap_append, List.length_append]
      omega

theorem pairAt_next_none (conv : Conversation) (i : Nat)
    (h : (pairAt conv i).isSome = true) : pairAt conv (i + 1) = none := by
  obtain ⟨a, ha⟩ := Option.isSome_iff_exists.mp h
  obtain ⟨u, ai, _, hai, _, h2, _, _⟩ := pairAt_eq_some conv i a ha
  cases hnext : conv.messages[i + 1 + 1]? with
  | none =>
    unfold pairAt
    rw [hai, hnext]
  | some m =>
    rw [pairAt_of_get conv (i + 1) ai m hai hnext, if_neg]
    rw [h2]
    simp

theorem pairingPass_length_le (conv : Conversation) :
    (pairingPass conv).length ≤ conv.messages.length / 2 := by
  have h := filterMap_range_sparse (pairAt conv) (pairAt_next_none conv)
    (conv.messages.length - 1)
  unfold pairingPass
  omega

theorem flatMap_pairingPass_length_le (conversations : List Conversation) :
    (conversations.flatMap pairingPass).length ≤
      (conversations.map (fun c => c.messages.length / 2)).sum := by
  induction conversations with
  | nil => simp
  | cons c t ih =>
    rw [List.flatMap_cons, List.length_append, List.map_cons, List.sum_cons]
    have := pairingPass_length_le c
    omega

/-- C19.  For every list of conversations, `extractAnecdotes` returns at most as
many anecdotes as the sum over the conversations of `⌊len(messages) / 2⌋`: when the
pair `(i, i+1)` is admitted the pair `(i+1, i+2)` is skipped.  In particular the
empty list of conversations, and any conversation with fewer than two messages,
yields no anecdote. -/
theorem extractAnecdotes_length_bound (conversations : List Conversation) :
    (extractAnecdotes conversations).length ≤
        (conversations.map (fun c => c.messages.length / 2)).sum ∧
      (∀ (conv : Conversation) (i : Nat),
        (pairAt conv i).isSome = true → pairAt conv (i + 1) = none) ∧
      extractAnecdotes [] = [] ∧
      ∀ conv : Conversation, conv.messages.length < 2 → extractAnecdotes [conv] = [] := by
  refine ⟨?_, pairAt_next_none, rfl, ?_⟩
  · rw [(extractAnecdotes_perm conversations).length_eq]
    exact flatMap_pairingPass_length_le conversations
  · intro conv hlen
    have h := flatMap_pairingPass_length_le [conv]
    rw [← (extractAnecdotes_perm [conv]).length_eq] at h
    have h0 : (extractAnecdotes [conv]).length = 0 := by
      simp only [List.map_cons, List.map_nil, List.sum_cons, List.sum_nil] at h
      omega
    exact List.length_eq_zero.mp h0

/-! ## Keyword part of the pressure score -/

/-- Without flag `g`, the array returned for a pattern written `\b( ... )\b` holds
the match and its capture group, so its length is 2 when the pattern matches and 0
otherwise. -/
theorem matchArrayLength_nonGlobal (text : String) (r : Regex)
    (hg : r.global = false) (hw : r.wordBounded = true) :
    matchArrayLength text r = if r.test text = true then 2 else 0 := by
  unfold matchArrayLength strMatch Regex.test
  rw [hg, hw]
  cases exec r none text.data <;> simp

theorem pressure_patterns_flags :
    ∀ e ∈ PRESSURE_TYPES, e.2.global = false ∧ e.2.wordBounded = true := by
  decide

theorem subScore_two_valued (text : String) (e : String × Regex) (he : e ∈ PRESSURE_TYPES) :
    subScore text e.2 = if e.2.test text = true then 0.4 else 0 := by
  have hf := pressure_patterns_flags e he
  unfold subScore
  rw [matchArrayLength_nonGlobal text e.2 hf.1 hf.2]
  by_cases h : e.2.test text = true
  · rw [if_pos h, if_pos h]; norm_num
  · rw [if_neg h, if_neg h]; norm_num

/-- The outcome of the selection loop of `scorePressure` in terms of which patterns
match. -/
theorem dominant_by_test (text : String) :
    (dominant text = (0, "General pressure") ∧
        ∀ e ∈ PRESSURE_TYPES, e.2.test text = false) ∨
      ∃ pre e post, PRESSURE_TYPES = pre ++ e :: post ∧
        dominant text = (0.4, e.1) ∧ e.2.test text = true ∧
        ∀ e' ∈ pre, e'.2.test text = false := by
  have hval : ∀ e ∈ PRESSURE_TYPES, ∀ v : ℚ, subScore text e.2 = v →
      (e.2.test text = true → v = 0.4) ∧ (e.2.test text = false → v = 0) := by
    intro e he v hv
    rw [subScore_two_valued text e he] at hv
    constructor
    · intro ht; rw [if_pos ht] at hv; exact hv.symm
    · intro ht
      rw [if_neg (by rw [ht]; exact Bool.false_ne_true)] at hv
      exact hv.symm
  have hpos : ∀ e ∈ PRESSURE_TYPES, 0 < subScore text e.2 → e.2.test text = true := by
    intro e he h
    by_contra hc
    have hf : e.2.test text = false := by simpa using hc
    rw [(hval e he _ rfl).2 hf] at h
    exact lt_irrefl 0 h
  rcases dominant_cases text with ⟨h1, h0⟩ | ⟨pre, e, post, h1, h2, h3, h4, _⟩
  · left
    refine ⟨h1, fun e he => ?_⟩
    by_contra hc
    have ht : e.2.test text = true := by simpa using hc
    have := (hval e he _ rfl).1 ht
    rw [h0 e he] at this
    norm_num at this
  · right
    have he : e ∈ PRESSURE_TYPES := by rw [h1]; simp
    have ht := hpos e he h3
    refine ⟨pre, e, post, h1, ?_, ht, ?_⟩
    · rw [h2, (hval e he _ rfl).1 ht]
    · intro e' he'
      have he'm : e' ∈ PRESSURE_TYPES := by rw [h1]; simp [he']
      by_contra hc
      have ht' : e'.2.test text = true := by simpa using hc
      have hlt := h4 e' he'
      rw [(hval e' he'm _ rfl).1 ht', (hval e he _ rfl).1 ht] at hlt
      exact lt_irrefl _ hlt

theorem score_ge_keyword (text : String) : (dominant text).1 ≤ 1 →
    min (dominant text).1 1 ≤ (scorePressure text).score := by
  intro _
  rw [scorePressure_score_eq]
  apply min_le_min _ (by norm_num)
  have h1 : (0 : ℚ) ≤ (questions text : ℚ) * 0.1 := by positivity
  have h2 : (0 : ℚ) ≤ (emphasis text : ℚ) * 0.05 := by positivity
  linarith

theorem mem_extractAnecdotes_of_pairAt (conversations : List Conversation)
    (conv : Conversation) (hc : conv ∈ conversations) (i : Nat) (a : Anecdote)
    (h : pairAt conv i = some a) : a ∈ extractAnecdotes conversations := by
  rw [(extractAnecdotes_perm conversations).mem_iff, List.mem_flatMap]
  refine ⟨conv, hc, ?_⟩
  obtain ⟨u, ai, _, hai, _, _, _, _⟩ := pairAt_eq_some conv i a h
  have hlen := (List.getElem?_eq_some.mp hai).1
  unfold pairingPass
  rw [List.mem_filterMap]
  exact ⟨i, List.mem_range.mpr (by omega), h⟩

/-- C20.  For every text, each category's sub-score is `0.4` when its pattern
matches and `0` when it does not, however many keywords occur; so the keyword part
of the score of `scorePressure` is exactly `0` when no category pattern matches
and exactly `0.4` when at least one does, and the type is then the first category
in enumeration order whose pattern matches.  Consequently a user-like turn that
contains a pressure keyword and is followed by a turn that is not user-like is
admitted, with score at least `0.4`. -/
theorem keyword_score_two_valued (text : String) :
    (∀ e ∈ PRESSURE_TYPES, subScore text e.2 = if e.2.test text = true then 0.4 else 0) ∧
      ((∀ e ∈ PRESSURE_TYPES, e.2.test text = false) →
        (dominant text).1 = 0 ∧ maxSubScore text = 0 ∧
          (scorePressure text).type = "General pressure") ∧
      ((∃ e ∈ PRESSURE_TYPES, e.2.test text = true) →
        (dominant text).1 = 0.4 ∧ maxSubScore text = 0.4 ∧
          ∃ pre e post, PRESSURE_TYPES = pre ++ e :: post ∧ e.2.test text = true ∧
            (∀ e' ∈ pre, e'.2.test text = false) ∧ (scorePressure text).type = e.1) ∧
      ∀ (conversations : List Conversation) (conv : Conversation) (i : Nat)
        (userMsg aiMsg : Turn),
        conv ∈ conversations → conv.messages[i]? = some userMsg →
        conv.messages[i + 1]? = some aiMsg → userMsg.content = text →
        isUserRole userMsg.role = true → isUserRole aiMsg.role = false →
        (∃ e ∈ PRESSURE_TYPES, e.2.test text = true) →
        0.4 ≤ (scorePressure text).score ∧
          anecdoteOf conv i userMsg aiMsg ∈ extractAnecdotes conversations := by
  have hsome : (∃ e ∈ PRESSURE_TYPES, e.2.test text = true) →
      ∃ pre e post, PRESSURE_TYPES = pre ++ e :: post ∧ dominant text = (0.4, e.1) ∧
        e.2.test text = true ∧ ∀ e' ∈ pre, e'.2.test text = false := by
    rintro ⟨e0, he0, ht0⟩
    rcases dominant_by_test text with ⟨_, h0⟩ | h
    · rw [h0 e0 he0] at ht0
      exact absurd ht0 (by decide)
    · exact h
  refine ⟨subScore_two_valued text, ?_, ?_, ?_⟩
  · intro hnone
    rcases dominant_by_test text with ⟨h1, _⟩ | ⟨pre, e, post, h1, _, ht, _⟩
    · refine ⟨by rw [h1], by rw [← dominant_fst, h1], by rw [scorePressure_type_eq, h1]⟩
    · have he : e ∈ PRESSURE_TYPES := by rw [h1]; simp
      rw [hnone e he] at ht
      exact absurd ht (by decide)
  · intro hex
    obtain ⟨pre, e, post, h1, h2, ht, hpre⟩ := hsome hex
    exact ⟨by rw [h2], by rw [← dominant_fst, h2], pre, e, post, h1, ht, hpre,
      by rw [scorePressure_type_eq, h2]⟩
  · intro conversations conv i userMsg aiMsg hc hu hai htext hur hai' hex
    obtain ⟨pre, e, post, _, h2, _, _⟩ := hsome hex
    have hscore : 0.4 ≤ (scorePressure text).score := by
      have h := score_ge_keyword text (by rw [h2]; norm_num)
      rw [h2] at h
      refine le_trans ?_ h
      norm_num
    refine ⟨hscore, ?_⟩
    apply mem_extractAnecdotes_of_pairAt conversations conv hc i
    rw [pairAt_of_get conv i userMsg aiMsg hu hai, if_pos]
    refine ⟨hur, hai', ?_⟩
    rw [htext]
    exact le_trans (by norm_num) hscore

/-! ## The scenario of a challenged answer -/

theorem foldl_axiomStep_counts (text : String) (l : List (Nat × String × List Regex))
    (acc : ℚ × AxiomResult) :
    l.foldl (axiomStep text) acc =
      ((l.map (fun e => (e.1, e.2.1))).zip
          (l.map (fun e => (e.2.2.filter (fun p => p.test text)).length))).foldl
        (fun acc p => if 0.5 * (p.2 : ℚ) > acc.1
          then (0.5 * (p.2 : ℚ), ({ number := p.1.1, name := p.1.2 } : AxiomResult))
          else acc) acc := by
  induction l generalizing acc with
  | nil => rfl
  | cons e t ih =>
    simp only [List.foldl_cons, List.map_cons, List.zip_cons_cons]
    rw [ih]
    simp only [axiomStep, axiomScore_eq]

/-- Evaluation of `detectAxiom` from the number of matching patterns per axiom. -/
theorem detectAxiom_of_counts (text : String) (ns : List Nat)
    (h : AXIOMS.map (fun e => (e.2.2.filter (fun p => p.test text)).length) = ns) :
    detectAxiom text =
      (((AXIOMS.map (fun e => (e.1, e.2.1))).zip ns).foldl
        (fun acc p => if 0.5 * (p.2 : ℚ) > acc.1
          then (0.5 * (p.2 : ℚ), ({ number := p.1.1, name := p.1.2 } : AxiomResult))
          else acc) (0, { number := 1, name := "No Dissimulation" })).2 := by
  rw [← h]
  unfold detectAxiom
  rw [foldl_axiomStep_counts]

theorem axiom_heads :
    AXIOMS.map (fun e => (e.1, e.2.1)) =
      [(1, "No Dissimulation"), (2, "Clean Transfer"), (3, "Sovereignty"),
        (4, "Verified Better"), (5, "Guard the Innocent")] := rfl

theorem scenario_detected :
    detectAxiom ("You're wrong, this is unacceptable!! Can you fix it right now?" ++ " " ++
        "You're right, let me reconsider my approach.") =
      { number := 4, name := "Verified Better" } := by
  rw [detectAxiom_of_counts _ [0, 0, 0, 2, 0] (by decide), axiom_heads]
  norm_num [List.zip, List.zipWith, List.foldl]

theorem scenario_score :
    (scorePressure "You're wrong, this is unacceptable!! Can you fix it right now?").score
      = 0.6 := by
  rw [score_of_lengths _ [2, 0, 0, 2, 0, 0, 2] 1 2 (by decide) (by decide) (by decide)]
  norm_num

theorem scenario_maxSubScore :
    maxSubScore "You're wrong, this is unacceptable!! Can you fix it right now?" = 0.4 := by
  have h : PRESSURE_TYPES.map
      (fun e => matchArrayLength
        "You're wrong, this is unacceptable!! Can you fix it right now?" e.2)
      = [2, 0, 0, 2, 0, 0, 2] := by decide
  have hs : PRESSURE_TYPES.map
      (fun e => subScore "You're wrong, this is unacceptable!! Can you fix it right now?" e.2)
      = (PRESSURE_TYPES.map (fun e => matchArrayLength
          "You're wrong, this is unacceptable!! Can you fix it right now?" e.2)).map
        (fun n : Nat => min ((n : ℚ) * 0.2) 1.0) := by
    rw [List.map_map]; rfl
  unfold maxSubScore
  rw [hs, h]
  norm_num

theorem scenario_outcome :
    detectOutcome "You're right, let me reconsider my approach." = "Clean articulation" := by
  decide

theorem scenario_extract (id title source : String) :
    extractAnecdotes [scenarioConversation id title source] =
      [anecdoteOf (scenarioConversation id title source) 0
        ⟨some "user", "You're wrong, this is unacceptable!! Can you fix it right now?"⟩
        ⟨some "assistant", "You're right, let me reconsider my approach."⟩] := by
  have h0 : pairAt (scenarioConversation id title source) 0 =
      some (anecdoteOf (scenarioConversation id title source) 0
        ⟨some "user", "You're wrong, this is unacceptable!! Can you fix it right now?"⟩
        ⟨some "assistant", "You're right, let me reconsider my approach."⟩) := by
    rw [pairAt_of_get (scenarioConversation id title source) 0
      ⟨some "user", "You're wrong, this is unacceptable!! Can you fix it right now?"⟩
      ⟨some "assistant", "You're right, let me reconsider my approach."⟩ rfl rfl, if_pos]
    refine ⟨isUserRole_user, isUserRole_assistant, ?_⟩
    show (0.3 : ℚ) ≤
      (scorePressure "You're wrong, this is unacceptable!! Can you fix it right now?").score
    rw [scenario_score]
    norm_num
  have hr : List.range ((scenarioConversation id title source).messages.length - 1) = [0] :=
    rfl
  unfold extractAnecdotes
  rw [List.flatMap_singleton]
  unfold pairingPass
  rw [hr]
  simp [List.filterMap_cons, h0]

/-- C13.  For the single conversation made of the user turn
"You're wrong, this is unacceptable!! Can you fix it right now?" and the assistant
turn "You're right, let me reconsider my approach.", `extractAnecdotes` produces
exactly one anecdote; the pressure score of its user text is the keyword sub-score
plus `0.10` for the two `!` plus `0.10` for the one `?`; its axiom is 4
("Verified Better") and its outcome is "Clean articulation": "reconsider" is not
a match of the hedge keyword "consider". -/
theorem scenario_challenged_answer (id title source : String) :
    (extractAnecdotes [scenarioConversation id title source]).map
        (fun a => (a.pressure, a.axiom_number, a.axiom_name, a.outcome, a.source_turn)) =
      [("You're wrong, this is unacceptable!! Can you fix it right now?", 4,
        "Verified Better", "Clean articulation", 0)] ∧
      "You're wrong, this is unacceptable!! Can you fix it right now?".data.count '!' = 2 ∧
      "You're wrong, this is unacceptable!! Can you fix it right now?".data.count '?' = 1 ∧
      (scorePressure "You're wrong, this is unacceptable!! Can you fix it right now?").score =
        maxSubScore "You're wrong, this is unacceptable!! Can you fix it right now?"
          + 0.10 + 0.10 ∧
      (∀ p ∈ compromiseMarkers,
        p.test "You're right, let me reconsider my approach." = false) ∧
      (keywordsI ["however", "but", "although", "consider", "balance"]).test
        "let me consider my approach" = true := by
  refine ⟨?_, by decide, by decide, ?_, by decide, by decide⟩
  · rw [scenario_extract]
    simp only [List.map_cons, List.map_nil, anecdoteOf]
    rw [scenario_detected, scenario_outcome]
  · rw [scenario_score, scenario_maxSubScore]
    norm_num

/-! ## Text parser: lemmas -/

theorem toUpper_of_lower : ∀ n < 123, 97 ≤ n → (Char.ofNat (n - 32)).isUpper = true := by
  decide

/-- Upper-casing changes a character only into an upper-case letter. -/
theorem toUpper_eq_of_not_upper (c d : Char) (h : c.toUpper = d) (hd : d.isUpper = false) :
    c = d := by
  unfold Char.toUpper at h
  by_cases hc : c.toNat ≥ 97 ∧ c.toNat ≤ 122
  · simp only [hc, and_self, if_true] at h
    have := toUpper_of_lower c.toNat (by omega) hc.1
    rw [h, hd] at this
    exact absurd this (by decide)
  · simpa [hc] using h

theorem canonicalize_eq_of_not_upper (c d : Char) (hc : canonicalize true c = c)
    (hu : c.isUpper = false) (h : canonicalize true c = canonicalize true d) : d = c := by
  rw [hc] at h
  exact toUpper_eq_of_not_upper d c (by simpa [canonicalize] using h.symm) hu

theorem isLineTerminator_cases (d : Char) (h : isLineTerminator d = true) :
    d = '\n' ∨ d = '\r' ∨ d = '\u2028' ∨ d = '\u2029' := by
  simpa [isLineTerminator, or_assoc] using h

theorem isLineTerminator_of_canonicalize (c d : Char)
    (h : canonicalize true c = canonicalize true d) (hd : isLineTerminator d = true) :
    isLineTerminator c = true := by
  have hcd : c = d := by
    rcases isLineTerminator_cases d hd with rfl | rfl | rfl | rfl
    · exact toUpper_eq_of_not_upper c _ (by simpa [canonicalize] using h) (by decide)
    · exact toUpper_eq_of_not_upper c _ (by simpa [canonicalize] using h) (by decide)
    · exact toUpper_eq_of_not_upper c _ (by simpa [canonicalize] using h) (by decide)
    · exact toUpper_eq_of_not_upper c _ (by simpa [canonicalize] using h) (by decide)
  rw [hcd]; exact hd

theorem isWordChar_not_terminator (d : Char) (h : isWordChar d = true) :
    isLineTerminator d = false := by
  by_contra hc
  have hd : isLineTerminator d = true := by simpa using hc
  rcases isLineTerminator_cases d hd with rfl | rfl | rfl | rfl <;>
    exact absurd h (by decide)

theorem splitBy_cons_sep (sep : Char → Bool) (c : Char) (s : List Char) (h : sep c = true) :
    splitBy sep (c :: s) = [] :: splitBy sep s := by
  simp [splitBy, h]

theorem splitBy_cons_not (sep : Char → Bool) (c : Char) (s : List Char)
    (h : sep c = false) :
    ∃ l ls, splitBy sep s = l :: ls ∧ splitBy sep (c :: s) = (c :: l) :: ls := by
  cases hs : splitBy sep s with
  | nil =>
    exfalso
    cases s with
    | nil => simp [splitBy] at hs
    | cons d t =>
      unfold splitBy at hs
      split at hs
      · simp at hs
      · split at hs <;> simp at hs
  | cons l ls =>
    exact ⟨l, ls, rfl, by simp [splitBy, h, hs]⟩

theorem splitBy_head (sep : Char → Bool) (s : List Char) :
    ∃ ls, splitBy sep s = s.takeWhile (fun c => !sep c) :: ls := by
  induction s with
  | nil => exact ⟨[], rfl⟩
  | cons c s ih =>
    by_cases h : sep c = true
    · exact ⟨splitBy sep s, by rw [splitBy_cons_sep sep c s h]; simp [List.takeWhile, h]⟩
    · have hf : sep c = false := by simpa using h
      obtain ⟨l, ls, h1, h2⟩ := splitBy_cons_not sep c s hf
      obtain ⟨ls', h3⟩ := ih
      rw [h1] at h3
      refine ⟨ls, ?_⟩
      rw [h2, (List.cons.inj h3).1]
      simp [List.takeWhile, hf]

/-- Splitting at line feeds and then at every line terminator gives the lines
obtained by splitting at every line terminator at once. -/
theorem splitBy_flatMap (p q : Char → Bool) (hpq : ∀ c, p c = true → q c = true)
    (s : List Char) : (splitBy p s).flatMap (splitBy q) = splitBy q s := by
  induction s with
  | nil => simp [splitBy]
  | cons c s ih =>
    by_cases hp : p c = true
    · rw [splitBy_cons_sep p c s hp, splitBy_cons_sep q c s (hpq c hp), List.flatMap_cons, ih]
      rfl
    · have hpf : p c = false := by simpa using hp
      obtain ⟨l, ls, h1, h2⟩ := splitBy_cons_not p c s hpf
      rw [h1, List.flatMap_cons] at ih
      rw [h2, List.flatMap_cons]
      by_cases hq : q c = true
      · rw [splitBy_cons_sep q c l hq, splitBy_cons_sep q c s hq, ← ih]
        rfl
      · have hqf : q c = false := by simpa using hq
        obtain ⟨k, ks, h3, h4⟩ := splitBy_cons_not q c l hqf
        obtain ⟨k', ks', h5, h6⟩ := splitBy_cons_not q c s hqf
        rw [h4, h6]
        rw [h3, h5] at ih
        simp only [List.cons_append] at ih
        obtain ⟨hk, hks⟩ := List.cons.inj ih
        simp only [List.cons_append]
        rw [hk, hks]

theorem mem_lines_cons (a : Bool) (d : Char) (s : List Char) (l : List Char)
    (h : l ∈ (if isLineTerminator d = true then splitBy isLineTerminator s
      else (splitBy isLineTerminator s).tail)) :
    l ∈ (if a = true then splitBy isLineTerminator (d :: s)
      else (splitBy isLineTerminator (d :: s)).tail) := by
  by_cases hd : isLineTerminator d = true
  · rw [if_pos hd] at h
    rw [splitBy_cons_sep isLineTerminator d s hd]
    by_cases ha : a = true
    · rw [if_pos ha]; exact List.mem_cons_of_mem _ h
    · rw [if_neg ha]; exact h
  · rw [if_neg hd] at h
    have hf : isLineTerminator d = false := by simpa using hd
    obtain ⟨l0, ls, h1, h2⟩ := splitBy_cons_not isLineTerminator d s hf
    rw [h1] at h
    rw [h2]
    by_cases ha : a = true
    · rw [if_pos ha]; exact List.mem_cons_of_mem _ h
    · rw [if_neg ha]; exact h

/-- When a marker pattern has a match in a text, some line of the text that begins
at or after the current position starts with a marker. -/
theorem scanLine_marker (alts : List (List Piece))
    (halts : ∀ s n, firstPieces alts s = some n →
      startsWithMarker (s.takeWhile (fun c => !isLineTerminator c)) = true)
    (s : List Char) : ∀ (skip : Nat) (prev : Option Char), scanLine alts skip prev s ≠ [] →
      ∃ l ∈ (if atLineStart prev = true then splitBy isLineTerminator s
        else (splitBy isLineTerminator s).tail), startsWithMarker l = true := by
  have hhere : ∀ (prev : Option Char) (t : List Char) (n : Nat),
      matchLineAt alts prev t = some n →
      ∃ l ∈ (if atLineStart prev = true then splitBy isLineTerminator t
        else (splitBy isLineTerminator t).tail), startsWithMarker l = true := by
    intro prev t n hm
    unfold matchLineAt at hm
    by_cases ha : atLineStart prev = true
    · rw [if_pos ha] at hm
      rw [if_pos ha]
      obtain ⟨ls, hls⟩ := splitBy_head isLineTerminator t
      exact ⟨_, by rw [hls]; exact List.mem_cons_self _ _, halts t n hm⟩
    · rw [if_neg ha] at hm
      exact absurd hm (by simp)
  induction s with
  | nil =>
    intro skip prev h
    cases hm : matchLineAt alts prev [] with
    | none => simp [scanLine, hm] at h
    | some n => exact hhere prev [] n hm
  | cons d s ih =>
    intro skip prev h
    cases skip with
    | succ k =>
      rw [scanLine] at h
      obtain ⟨l, hl, hmk⟩ := ih k (some d) h
      exact ⟨l, mem_lines_cons _ d s l hl, hmk⟩
    | zero =>
      cases hm : matchLineAt alts prev (d :: s) with
      | some n => exact hhere prev (d :: s) n hm
      | none =>
        rw [scanLine, hm] at h
        obtain ⟨l, hl, hmk⟩ := ih 0 (some d) h
        exact ⟨l, mem_lines_cons _ d s l hl, hmk⟩

theorem matchPieces_chr_nil (c : Char) (rest : List Piece) :
    matchPieces (Piece.chr c :: rest) [] = none := by
  rw [matchPieces]

theorem matchPieces_chr_cons (c d : Char) (rest : List Piece) (s : List Char) :
    matchPieces (Piece.chr c :: rest) (d :: s) =
      if canonicalize true c = canonicalize true d then (matchPieces rest s).map (· + 1)
      else none := by
  rw [matchPieces]

theorem matchPieces_plus_nil (cls : Char → Bool) (rest : List Piece) :
    matchPieces (Piece.plus cls :: rest) [] = none := by
  rw [matchPieces]

theorem matchPieces_plus_cons (cls : Char → Bool) (d : Char) (rest : List Piece)
    (s : List Char) :
    matchPieces (Piece.plus cls :: rest) (d :: s) =
      if cls d = true then (greedyClass cls (matchPieces rest) s).map (· + 1) else none := by
  rw [matchPieces]

theorem firstPieces_some (alts : List (List Piece)) (s : List Char) (n : Nat)
    (h : firstPieces alts s = some n) : ∃ a ∈ alts, matchPieces a s = some n := by
  induction alts with
  | nil => simp [firstPieces] at h
  | cons a more ih =>
    unfold firstPieces at h
    cases hm : matchPieces a s with
    | some k =>
      rw [hm] at h
      exact ⟨a, List.mem_cons_self _ _, by rw [hm]; exact h⟩
    | none =>
      rw [hm] at h
      obtain ⟨b, hb, hb'⟩ := ih h
      exact ⟨b, List.mem_cons_of_mem _ hb, hb'⟩

theorem matchPieces_chars (cs : List Char) (rest : List Piece) :
    ∀ (s : List Char) (n : Nat), matchPieces (cs.map Piece.chr ++ rest) s = some n →
      startsWithChars cs s = true := by
  induction cs with
  | nil => intro s n _; rfl
  | cons c cs ih =>
    intro s n h
    cases s with
    | nil =>
      rw [List.map_cons, List.cons_append, matchPieces_chr_nil] at h
      exact absurd h (by simp)
    | cons d s =>
      rw [List.map_cons, List.cons_append, matchPieces_chr_cons] at h
      by_cases hc : canonicalize true c = canonicalize true d
      · rw [if_pos hc] at h
        cases hm : matchPieces (cs.map Piece.chr ++ rest) s with
        | none => rw [hm] at h; simp at h
        | some k =>
          simp only [startsWithChars, hc, beq_self_eq_true, Bool.true_and]
          exact ih s k hm
      · rw [if_neg hc] at h
        exact absurd h (by simp)

theorem startsWithChars_takeWhile (cs : List Char)
    (hcs : ∀ c ∈ cs, isLineTerminator c = false) :
    ∀ s : List Char, startsWithChars cs s = true →
      startsWithChars cs (s.takeWhile (fun c => !isLineTerminator c)) = true := by
  induction cs with
  | nil => intro s _; rfl
  | cons c cs ih =>
    intro s h
    cases s with
    | nil => simp [startsWithChars] at h
    | cons d s =>
      simp only [startsWithChars, Bool.and_eq_true, beq_iff_eq] at h
      have hd : isLineTerminator d = false := by
        by_contra hc
        have ht : isLineTerminator d = true := by simpa using hc
        have := isLineTerminator_of_canonicalize c d h.1 ht
        rw [hcs c (List.mem_cons_self _ _)] at this
        exact absurd this (by decide)
      simp only [List.takeWhile, hd, Bool.not_false, startsWithChars, h.1, beq_self_eq_true,
        Bool.true_and]
      exact ih (fun c' hc' => hcs c' (List.mem_cons_of_mem _ hc')) s h.2

theorem marker_names_safe :
    ∀ name ∈ markerNames, ∀ c ∈ name.data ++ [':'], isLineTerminator c = false := by
  decide

theorem colon_of_match (rest : List Piece) (t : List Char)
    (h : (matchPieces (Piece.chr ':' :: rest) t).isSome = true) : t.head? = some ':' := by
  cases t with
  | nil => rw [matchPieces_chr_nil] at h; exact absurd h (by simp)
  | cons e t =>
    rw [matchPieces_chr_cons] at h
    by_cases hc : canonicalize true ':' = canonicalize true e
    · have := canonicalize_eq_of_not_upper ':' e (by decide) (by decide) hc
      rw [this]; rfl
    · rw [if_neg hc] at h
      exact absurd h (by simp)

theorem handle_of_greedy (rest : List Piece) :
    ∀ s : List Char,
      (greedyClass isWordChar (matchPieces (Piece.chr ':' :: rest)) s).isSome = true →
      s.head? = some ':' ∨ handleThenColon s = true := by
  intro s
  induction s with
  | nil =>
    intro h
    rw [greedyClass, matchPieces_chr_nil] at h
    exact absurd h (by simp)
  | cons e t ih =>
    intro h
    unfold greedyClass at h
    by_cases hw : isWordChar e = true
    · rw [if_pos hw] at h
      cases hg : greedyClass isWordChar (matchPieces (Piece.chr ':' :: rest)) t with
      | some k =>
        right
        have := ih (by rw [hg]; rfl)
        rcases this with h1 | h1
        · simp [handleThenColon, hw, h1]
        · simp [handleThenColon, hw, h1]
      | none =>
        rw [hg] at h
        left
        exact colon_of_match rest (e :: t) h
    · rw [if_neg hw] at h
      left
      exact colon_of_match rest (e :: t) h

theorem handleThenColon_takeWhile :
    ∀ s : List Char, handleThenColon s = true →
      handleThenColon (s.takeWhile (fun c => !isLineTerminator c)) = true := by
  intro s
  induction s with
  | nil => intro h; simp [handleThenColon] at h
  | cons d s ih =>
    intro h
    simp only [handleThenColon, Bool.and_eq_true, Bool.or_eq_true, beq_iff_eq] at h
    have hd := isWordChar_not_terminator d h.1
    simp only [List.takeWhile, hd, Bool.not_false, handleThenColon, h.1, Bool.true_and,
      Bool.or_eq_true, beq_iff_eq]
    rcases h.2 with h2 | h2
    · left
      cases s with
      | nil => simp at h2
      | cons e t =>
        simp only [List.head?_cons, Option.some.injEq] at h2
        subst h2
        rfl
    · right
      exact ih h2

/-- A match of either marker pattern means that the line at that position starts
with a marker. -/
theorem marker_of_match (alts : List (List Piece)) (halts : alts ∈ markerPatterns)
    (s : List Char) (n : Nat) (h : firstPieces alts s = some n) :
    startsWithMarker (s.takeWhile (fun c => !isLineTerminator c)) = true := by
  simp only [markerPatterns, List.mem_cons, List.mem_singleton, List.not_mem_nil,
    or_false] at halts
  rcases halts with rfl | rfl
  · obtain ⟨a, ha, hm⟩ := firstPieces_some _ s n h
    obtain ⟨name, hname, rfl⟩ := List.mem_map.mp ha
    have hm' : matchPieces ((name.data ++ [':']).map Piece.chr ++ [Piece.star isTrimmed]) s
        = some n := by
      rw [List.map_append, List.append_assoc]
      exact hm
    have h1 := matchPieces_chars (name.data ++ [':']) _ s n hm'
    have h2 := startsWithChars_takeWhile (name.data ++ [':']) (marker_names_safe name hname)
      s h1
    unfold startsWithMarker
    rw [Bool.or_eq_true]
    left
    exact List.any_eq_true.mpr ⟨name, hname, h2⟩
  · obtain ⟨a, ha, hm⟩ := firstPieces_some _ s n h
    rw [List.mem_singleton] at ha
    subst ha
    cases s with
    | nil => rw [matchPieces_chr_nil] at hm; exact absurd hm (by simp)
    | cons c s =>
      rw [matchPieces_chr_cons] at hm
      by_cases hc : canonicalize true '@' = canonicalize true c
      · have hce := canonicalize_eq_of_not_upper '@' c (by decide) (by decide) hc
        subst hce
        rw [if_pos hc] at hm
        cases s with
        | nil => rw [matchPieces_plus_nil] at hm; simp at hm
        | cons d s =>
          rw [matchPieces_plus_cons] at hm
          by_cases hw : isWordChar d = true
          · rw [if_pos hw] at hm
            have hg : (greedyClass isWordChar
                (matchPieces [Piece.chr ':', Piece.star isTrimmed]) s).isSome = true := by
              cases hgg : greedyClass isWordChar
                  (matchPieces [Piece.chr ':', Piece.star isTrimmed]) s with
              | none => rw [hgg] at hm; simp at hm
              | some k => rfl
            have hh : handleThenColon (d :: s) = true := by
              rcases handle_of_greedy _ s hg with h1 | h1
              · simp [handleThenColon, hw, h1]
              · simp [handleThenColon, hw, h1]
            have hh' := handleThenColon_takeWhile (d :: s) hh
            unfold startsWithMarker
            rw [Bool.or_eq_true]
            right
            have hat : isLineTerminator '@' = false := by decide
            simp only [List.takeWhile, hat, Bool.not_false, beq_self_eq_true, Bool.true_and]
            exact hh'
          · rw [if_neg hw] at hm; simp at hm
      · rw [if_neg hc] at hm
        exact absurd hm (by simp)

theorem scanLine_of_no_marker (alts : List (List Piece)) (halts : alts ∈ markerPatterns)
    (line : List Char)
    (h : ∀ l ∈ splitBy isLineTerminator line, startsWithMarker l = false) :
    scanLine alts 0 none line = [] := by
  by_contra hc
  obtain ⟨l, hl, hm⟩ := scanLine_marker alts (marker_of_match alts halts) line 0 none hc
  have hl' : l ∈ splitBy isLineTerminator line := by simpa [atLineStart] using hl
  rw [h l hl'] at hm
  exact absurd hm (by decide)

theorem firstMarker_none (line : List Char) (patterns : List (List (List Piece)))
    (h : ∀ alts ∈ patterns, scanLine alts 0 none line = []) :
    firstMarker line patterns = none := by
  induction patterns with
  | nil => rfl
  | cons p more ih =>
    unfold firstMarker
    rw [h p (List.mem_cons_self _ _)]
    exact ih (fun a ha => h a (List.mem_cons_of_mem _ ha))

theorem parseStep_unmarked (line : List Char)
    (h : firstMarker line markerPatterns = none) :
    parseStep { currentRole := none, currentContent := [], turns := [] } line =
      { currentRole := none, currentContent := [], turns := [] } := by
  unfold parseStep
  rw [h]
  rfl

theorem foldl_parseStep_unmarked (lines : List (List Char))
    (h : ∀ line ∈ lines, firstMarker line markerPatterns = none) :
    lines.foldl parseStep { currentRole := none, currentContent := [], turns := [] } =
      { currentRole := none, currentContent := [], turns := [] } := by
  induction lines with
  | nil => rfl
  | cons line more ih =>
    rw [List.foldl_cons, parseStep_unmarked line (h line (List.mem_cons_self _ _))]
    exact ih (fun l hl => h l (List.mem_cons_of_mem _ hl))

theorem parseTurns_unmarked (content : String)
    (h : ∀ l ∈ splitBy isLineTerminator content.data, startsWithMarker l = false) :
    parseTurns content = [⟨some "unknown", content⟩] := by
  have hlines : ∀ line ∈ splitBy (fun c => c == '\n') content.data,
      firstMarker line markerPatterns = none := by
    intro line hline
    apply firstMarker_none
    intro alts halts
    apply scanLine_of_no_marker alts halts
    intro l hl
    apply h
    rw [← splitBy_flatMap (fun c => c == '\n') isLineTerminator
      (fun c hc => by simp [isLineTerminator, beq_iff_eq.mp hc]) content.data]
    exact List.mem_flatMap.mpr ⟨line, hline, hl⟩
  unfold parseTurns
  rw [foldl_parseStep_unmarked _ hlines]
  rfl

theorem parseTurns_carriage_return :
    parseTurns "intro\rUser: hi" = [⟨some "user", "intro\rhi"⟩] := by
  decide

/-! ## Text parser: claims -/

/-- C18 (counterexample).  In the text `intro`, carriage return, `User: hi` no line
separated by line feeds starts with a role marker, yet `parseText` returns a turn
with role "user" and content `intro`, carriage return, `hi`: under flag `m` the
anchor `^` also matches right after a carriage return. -/
theorem parseText_marker_after_carriage_return :
    (∀ l ∈ splitBy (fun c => c == '\n') "intro\rUser: hi".data,
        startsWithMarker l = false) ∧
      parseTurns "intro\rUser: hi" = [⟨some "user", "intro\rhi"⟩] ∧
      ∀ (path : PathModule) (sourcePath : String),
        (parseText path "intro\rUser: hi" sourcePath).map (fun c => c.messages) =
          [[⟨some "user", "intro\rhi"⟩]] := by
  refine ⟨by decide, parseTurns_carriage_return, ?_⟩
  intro path sourcePath
  simp only [parseText, List.map_cons, List.map_nil]
  rw [parseTurns_carriage_return]

/-- C18 (amended).  For every text in which no line, lines being separated by a
line feed, carriage return, line separator or paragraph separator, starts with a
recognized role marker (`User:`, `Human:`, `Assistant:`, `AI:`, `Claude:`, `Grok:`,
`ChatGPT:` in any letter case, or `@handle:`), `parseText` returns exactly one
conversation whose messages are exactly one turn with role "unknown" and content
equal to the whole input. -/
theorem parseText_unmarked (path : PathModule) (content sourcePath : String)
    (h : ∀ l ∈ splitBy isLineTerminator content.data, startsWithMarker l = false) :
    parseText path content sourcePath =
      [{ id := path.stem sourcePath
         title := path.basename sourcePath
         messages := [⟨some "unknown", content⟩]
         source := sourcePath }] := by
  unfold parseText
  rw [parseTurns_unmarked content h]

theorem parseText_unmarked_witness :
    (∀ l ∈ splitBy isLineTerminator "hello there\nuser said: hi\r@ home".data,
        startsWithMarker l = false) ∧
      parseText ⟨id, id⟩ "hello there\nuser said: hi\r@ home" "notes.txt" =
        [{ id := "notes.txt"
           title := "notes.txt"
           messages := [⟨some "unknown", "hello there\nuser said: hi\r@ home"⟩]
           source := "notes.txt" }] :=
  ⟨by decide,
    parseText_unmarked ⟨id, id⟩ "hello there\nuser said: hi\r@ home" "notes.txt" (by decide)⟩

/-! ## Provenance: an instance -/

theorem anecdote_provenance_witness :
    anecdoteOf (scenarioConversation "c" "t" "f") 0
        ⟨some "user", "You're wrong, this is unacceptable!! Can you fix it right now?"⟩
        ⟨some "assistant", "You're right, let me reconsider my approach."⟩
        ∈ extractAnecdotes [scenarioConversation "c" "t" "f"] ∧
      ∃ c ∈ [scenarioConversation "c" "t" "f"],
        "c" = c.id ∧ "f" = c.source ∧ 0 + 1 < c.messages.length ∧
        ∃ userMsg aiMsg, c.messages[0]? = some userMsg ∧ c.messages[0 + 1]? = some aiMsg ∧
          isUserRole userMsg.role = true ∧
          userMsg.content = "You're wrong, this is unacceptable!! Can you fix it right now?" ∧
          truncate "You're wrong, this is unacceptable!! Can you fix it right now?" 200
            = truncate userMsg.content 200 ∧
          isUserRole aiMsg.role = false ∧
          truncate "You're right, let me reconsider my approach." 500
            = truncate aiMsg.content 500 :=
  have hmem : anecdoteOf (scenarioConversation "c" "t" "f") 0
      ⟨some "user", "You're wrong, this is unacceptable!! Can you fix it right now?"⟩
      ⟨some "assistant", "You're right, let me reconsider my approach."⟩
      ∈ extractAnecdotes [scenarioConversation "c" "t" "f"] := by
    rw [scenario_extract]
    exact List.mem_singleton.mpr rfl
  ⟨hmem, anecdote_provenance [scenarioConversation "c" "t" "f"] _ hmem⟩

end Sovereignty
